import Mathlib

/-!
Verification of the two algorithmic cores of the battleships repository:
`board_setup/board_setup.py` (class `BoardSetup`) and
`strategy/strategy.py` (class `Strategy`).

The Python code is shallowly embedded: the mutable 2D board lists become
`List (List Nat)` / `List (List Char)` with explicit functional updates,
Python sets become `Finset (Int × Int)`, dictionaries become association
lists in insertion order, and `random.shuffle` / `random.choice` are
modelled by an externally supplied oracle (a position list per ship
instance, resp. a picked coordinate), over which all theorems quantify.
-/

namespace Battleships

abbrev Coord : Type := Int × Int

abbrev Shape : Type := List (Int × Int)

/-- Python list read `l[i]` for an index already known to be in range
(models in-range reads; callers establish the bound). -/
def nthD {α : Type} : List α → Nat → α → α
  | [], _, d => d
  | a :: _, 0, _ => a
  | _ :: t, n + 1, d => nthD t n d

/-- Python list write `l[i] = v` for an in-range index (out of range it
leaves the list unchanged; the embedded code only writes in range). -/
def setNth {α : Type} : List α → Nat → α → List α
  | [], _, _ => []
  | _ :: t, 0, v => v :: t
  | a :: t, n + 1, v => a :: setNth t n v

/-- Read of the 2D grid at column `x`, row `y` (the source indexes as
`board[y][x]`); used only at coordinates already checked in range. -/
def cell2 {α : Type} (b : List (List α)) (d : α) (x y : Int) : α :=
  nthD (nthD b y.toNat []) x.toNat d

/-- Write of the 2D grid at column `x`, row `y` (`board[y][x] = v`). -/
def setc2 {α : Type} (b : List (List α)) (x y : Int) (v : α) : List (List α) :=
  setNth b y.toNat (setNth (nthD b y.toNat []) x.toNat v)

/-- The bounds test `0 <= x < cols and 0 <= y < rows` used throughout
both source files. -/
def inb (cols rows : Nat) (x y : Int) : Bool :=
  decide (0 ≤ x ∧ x < (cols : Int) ∧ 0 ≤ y ∧ y < (rows : Int))

/-- `min` over a nonempty Python sequence (`min(...)`); `0` on the empty
list, which the source never passes. -/
def listMin : List Int → Int
  | [] => 0
  | [a] => a
  | a :: b :: t => min a (listMin (b :: t))

/-- `max` over a nonempty Python sequence. -/
def listMax : List Int → Int
  | [] => 0
  | [a] => a
  | a :: b :: t => max a (listMax (b :: t))

/-! ### BoardSetup (`board_setup.py`) -/

/-- The empty board built in `BoardSetup.__init__` / `reset_board`:
`[[0 for _ in range(cols)] for _ in range(rows)]`. -/
def mkBoard (rows cols : Nat) : List (List Nat) :=
  List.replicate rows (List.replicate cols 0)

/-- `empty_spaces` of `board_stats`: `sum(row.count(0) for row in self.board)`. -/
def board_stats_empty (b : List (List Nat)) : Nat :=
  (b.map fun r => r.count 0).sum

/-- `occupied_spaces` of `board_stats`: `self.total_blocks - empty_spaces`,
with `total_blocks = rows * cols` fixed at construction. -/
def board_stats_occupied (rows cols : Nat) (b : List (List Nat)) : Nat :=
  rows * cols - board_stats_empty b

/-- The static `shapes` table of `place_ships`, together with the
`shapes.get(ship_id, [(0, 0)])` single-cell fallback for unlisted ids. -/
def getShape (shipId : Nat) : Shape :=
  match shipId with
  | 1 => [(0, 0), (0, 1)]
  | 2 => [(0, 0), (0, 1), (0, 2)]
  | 3 => [(0, 0), (0, 1), (0, 2), (0, 3)]
  | 4 => [(0, 0), (0, 1), (0, 2), (1, 1)]
  | 5 => [(0, 0), (1, 0), (2, 0), (2, 1)]
  | 6 => [(0, 0), (0, 1), (1, 1), (1, 2)]
  | 7 => [(0, 0), (0, 1), (0, 2), (0, 3), (1, 1), (1, 2)]
  | _ => [(0, 0)]

/-- `min(p[0] for p in shape)`. -/
def minX (s : Shape) : Int := listMin (s.map Prod.fst)

/-- `min(p[1] for p in shape)`. -/
def minY (s : Shape) : Int := listMin (s.map Prod.snd)

/-- The nested `mirror` helper of `place_ships`:
`[(dx - min_x, -dy) for dx, dy in shape]`. -/
def mirror (s : Shape) : Shape :=
  s.map fun p => (p.1 - minX s, -p.2)

/-- The nested `rotate` helper of `place_ships`:
`[(dy - min_y, -dx + min_x) for dx, dy in shape]`. -/
def rotate (s : Shape) : Shape :=
  s.map fun p => (p.2 - minY s, -p.1 + minX s)

/-- The 8-neighbourhood scan order of `can_place_ship`: `adj_x` runs over
`range(nx-1, nx+2)` outside, `adj_y` inside (the centre cell included). -/
def nbhd9 (nx ny : Int) : List (Int × Int) :=
  [(nx - 1, ny - 1), (nx - 1, ny), (nx - 1, ny + 1),
   (nx, ny - 1), (nx, ny), (nx, ny + 1),
   (nx + 1, ny - 1), (nx + 1, ny), (nx + 1, ny + 1)]

/-- The nested `can_place_ship(x, y, ship_shape)` of `place_ships`: every
shape cell must be in bounds, water, and have an all-water in-bounds
8-neighbourhood. -/
def can_place_ship (rows cols : Nat) (b : List (List Nat)) (x y : Int) (shape : Shape) : Bool :=
  shape.all fun p =>
    inb cols rows (x + p.1) (y + p.2) &&
    (cell2 b 0 (x + p.1) (y + p.2) == 0) &&
    (nbhd9 (x + p.1) (y + p.2)).all fun q =>
      !(inb cols rows q.1 q.2) || (cell2 b 0 q.1 q.2 == 0)

/-- Absolute board cells covered by a shape anchored at `(x, y)`. -/
def absCells (x y : Int) (s : Shape) : List Coord :=
  s.map fun p => (x + p.1, y + p.2)

/-- The stamping loop of `place_ships`:
`for dx, dy in ship_shape: self.board[y + dy][x + dx] = ship_id`. -/
def stampShape (b : List (List Nat)) (x y : Int) (s : Shape) (shipId : Nat) : List (List Nat) :=
  s.foldl (fun acc p => setc2 acc (x + p.1) (y + p.2) shipId) b

/-- The inner `for _ in range(4)` rotation loop: test the current shape,
rotating on failure; returns the placed orientation (if any) together with
the shape variable as left after the loop. -/
def tryRotations (rows cols : Nat) (b : List (List Nat)) (x y : Int) :
    Nat → Shape → Option Shape × Shape
  | 0, s => (none, s)
  | n + 1, s =>
    if can_place_ship rows cols b x y s then (some s, s)
    else tryRotations rows cols b x y n (rotate s)

/-- The outer `for _ in range(2)` mirror loop around the rotation loop:
try four rotations of the shape, then four rotations of the mirror of the
shape variable left by the first loop. -/
def tryOrient (rows cols : Nat) (b : List (List Nat)) (x y : Int) (s0 : Shape) : Option Shape :=
  match tryRotations rows cols b x y 4 s0 with
  | (some s, _) => some s
  | (none, s4) => (tryRotations rows cols b x y 4 (mirror s4)).1

/-- The two exception modes of `place_ships`: the explicit
`ValueError(f"Unable to place ship {ship_id}")`, and the `IndexError`
raised by `positions.pop()` on an exhausted candidate list. -/
inductive PlaceErr : Type where
  | valueError (shipId : Nat)
  | indexError
deriving DecidableEq

/-- The `while not placed and attempts > 0` loop for one ship instance:
each iteration pops the last element of `positions`, fetches the base
shape, and tries the eight orientations; on success the board is stamped
and the absolute cells are reported (ghost data for the proofs). -/
def placeInstance (rows cols shipId : Nat) :
    Nat → List Coord → List (List Nat) → Except PlaceErr (List (List Nat) × List Coord)
  | 0, _, _ => .error (.valueError shipId)
  | n + 1, positions, b =>
    match positions.getLast? with
    | none => .error .indexError
    | some c =>
      match tryOrient rows cols b c.1 c.2 (getShape shipId) with
      | some s => .ok (stampShape b c.1 c.2 s shipId, absCells c.1 c.2 s)
      | none => placeInstance rows cols shipId n positions.dropLast b

/-- The `for _ in range(count)` loop of `place_ships`: place `cnt`
instances of one ship type, drawing a fresh shuffled position list from
the oracle `rand` for each instance (`generate_random_positions()`), with
the fixed `attempts = 2000` budget; accumulates the ghost placement list. -/
def placeCount (rows cols : Nat) (rand : Nat → List Coord) (shipId : Nat) :
    Nat → List (List Nat) → Nat → List (Nat × List Coord) →
    Except PlaceErr (List (List Nat) × Nat × List (Nat × List Coord))
  | 0, b, k, acc => .ok (b, k, acc)
  | cnt + 1, b, k, acc =>
    match placeInstance rows cols shipId 2000 (rand k) b with
    | .error e => .error e
    | .ok (b', cells) => placeCount rows cols rand shipId cnt b' (k + 1) (acc ++ [(shipId, cells)])

/-- The `for ship_id, count in self.ships_dict.items()` loop of
`place_ships` over the census in insertion order. -/
def placeShipsAux (rows cols : Nat) (rand : Nat → List Coord) :
    List (Nat × Nat) → List (List Nat) → Nat → List (Nat × List Coord) →
    Except PlaceErr (List (List Nat) × Nat × List (Nat × List Coord))
  | [], b, k, acc => .ok (b, k, acc)
  | e :: rest, b, k, acc =>
    match placeCount rows cols rand e.1 e.2 b k acc with
    | .error err => .error err
    | .ok (b', k', acc') => placeShipsAux rows cols rand rest b' k' acc'

/-- `BoardSetup.place_ships()` starting from the freshly constructed
all-water board; `rand k` is the shuffled full position list used for the
k-th ship instance, and the returned ghost list records, per placed
instance, its ship id and occupied cells. -/
def place_ships (rows cols : Nat) (census : List (Nat × Nat)) (rand : Nat → List Coord) :
    Except PlaceErr (List (List Nat) × List (Nat × List Coord)) :=
  match placeShipsAux rows cols rand census (mkBoard rows cols) 0 [] with
  | .error e => .error e
  | .ok (b, _, ps) => .ok (b, ps)

/-- Chebyshev distance between two coordinates. -/
def cheb (a c : Coord) : Nat :=
  max (a.1 - c.1).natAbs (a.2 - c.2).natAbs

/-- Invariant of the placement loop relating the board to the ghost list of
placed instances: well-formed dimensions, positive ids, duplicate-free
in-bounds cells matching the stamped board, every occupied board cell
accounted for, instances pairwise non-touching (Chebyshev distance at
least 2), and the empty-cell count complementing the placed cells. -/
structure Inv (rows cols : Nat) (b : List (List Nat)) (ps : List (Nat × List Coord)) : Prop where
  wf_len : b.length = rows
  wf_row : ∀ r ∈ b, r.length = cols
  ids : ∀ q ∈ ps, q.1 ≠ 0
  cnodup : ∀ q ∈ ps, q.2.Nodup
  bounded : ∀ q ∈ ps, ∀ c ∈ q.2, 0 ≤ c.1 ∧ c.1 < (cols : Int) ∧ 0 ≤ c.2 ∧ c.2 < (rows : Int)
  cellEq : ∀ q ∈ ps, ∀ c ∈ q.2, cell2 b 0 c.1 c.2 = q.1
  occSub : ∀ u w : Int, 0 ≤ u → u < (cols : Int) → 0 ≤ w → w < (rows : Int) →
    cell2 b 0 u w ≠ 0 → ∃ q ∈ ps, (u, w) ∈ q.2
  sep : List.Pairwise (fun q q' => ∀ a ∈ q.2, ∀ c ∈ q'.2, a ≠ c ∧ 2 ≤ cheb a c) ps
  cnt : board_stats_empty b + (ps.map fun q => q.2.length).sum = rows * cols

/-! ### Strategy (`strategy.py`) -/

/-- `dict[int, int]` lookup `d[k]` / `k in d`, on the insertion-ordered
association list. -/
def dictGet (d : List (Nat × Nat)) (k : Nat) : Option Nat :=
  match d with
  | [] => none
  | e :: rest => if e.1 = k then some e.2 else dictGet rest k

/-- `dict[int, int]` update `d[k] = v` for a present key. -/
def dictSet (d : List (Nat × Nat)) (k v : Nat) : List (Nat × Nat) :=
  match d with
  | [] => [(k, v)]
  | e :: rest => if e.1 = k then (e.1, v) :: rest else e :: dictSet rest k v

/-- The mutable state of class `Strategy`. -/
structure Strategy : Type where
  rows : Nat
  cols : Nat
  ships_dict : List (Nat × Nat)
  enemy_board : List (List Char)
  shots_fired : Finset Coord
  missed_shots : Finset Coord
  hit_queue : List Coord
  current_hits : List Coord
  available_shots : Finset Coord

/-- `Strategy.__init__`: all-unknown opponent model, empty shot sets, and
`available_shots = {(x, y) for x in range(cols) for y in range(rows)}`. -/
def Strategy.init (rows cols : Nat) (ships : List (Nat × Nat)) : Strategy where
  rows := rows
  cols := cols
  ships_dict := ships
  enemy_board := List.replicate rows (List.replicate cols '?')
  shots_fired := ∅
  missed_shots := ∅
  hit_queue := []
  current_hits := []
  available_shots := (Finset.Ico (0 : Int) (cols : Int)) ×ˢ (Finset.Ico (0 : Int) (rows : Int))

/-- Python list indexing resolution: in-range indices, negative wrap-around
indices, and `none` for an `IndexError`. -/
def pyIdx (len : Nat) (i : Int) : Option Nat :=
  if 0 ≤ i ∧ i < (len : Int) then some i.toNat
  else if -(len : Int) ≤ i ∧ i < 0 then some ((len : Int) + i).toNat
  else none

/-- The unchecked write `self.enemy_board[y][x] = v` of `register_attack`:
`none` models the `IndexError` escape. -/
def pySet2D {α : Type} (b : List (List α)) (x y : Int) (v : α) : Option (List (List α)) :=
  match pyIdx b.length y with
  | none => none
  | some ry =>
    match pyIdx (nthD b ry []).length x with
    | none => none
    | some cx => some (setNth b ry (setNth (nthD b ry []) cx v))

/-- `get_random_shot`: `random.choice(tuple(self.available_shots))`, the
random number generator modelled by the supplied `pick`; the result is
`none` exactly when no valid pick is supplied (in particular when
`available_shots` is empty, where the source returns `None`). -/
def get_random_shot (s : Strategy) (pick : Coord) : Option Coord :=
  if pick ∈ s.available_shots then some pick else none

/-- `get_next_attack`: pop the front of `hit_queue` if nonempty, else a
random available shot; returns the coordinate and the updated state. -/
def get_next_attack (s : Strategy) (pick : Coord) : Option Coord × Strategy :=
  match s.hit_queue with
  | c :: rest => (some c, { s with hit_queue := rest })
  | [] => (get_random_shot s pick, s)

/-- The orthogonal candidate list `[(x-1, y), (x+1, y), (x, y-1), (x, y+1)]`
used by `get_adjacent_cells` and `mark_surrounding_cells`. -/
def neighbors4 (c : Coord) : List Coord :=
  [(c.1 - 1, c.2), (c.1 + 1, c.2), (c.1, c.2 - 1), (c.1, c.2 + 1)]

/-- `get_adjacent_cells(x, y)`: the four orthogonal neighbours filtered to
the board and to `available_shots`. -/
def get_adjacent_cells (s : Strategy) (x y : Int) : List Coord :=
  (neighbors4 (x, y)).filter fun c =>
    inb s.cols s.rows c.1 c.2 && decide (c ∈ s.available_shots)

/-- `get_target_cells`: adjacent cells of a single hit; for two or more
hits, the two extension cells of the inferred vertical or horizontal run
(`xs[0]` and `ys[0]` are the coordinates of the first hit), filtered to
`available_shots`. -/
def get_target_cells (s : Strategy) : List Coord :=
  match s.current_hits with
  | [] => []
  | [c] => get_adjacent_cells s c.1 c.2
  | c :: rest =>
    let xs := (c :: rest).map Prod.fst
    let ys := (c :: rest).map Prod.snd
    if xs.all fun a => a == c.1 then
      ([(c.1, listMin ys - 1), (c.1, listMax ys + 1)]).filter fun q =>
        decide (q ∈ s.available_shots)
    else
      ([(listMin xs - 1, c.2), (listMax xs + 1, c.2)]).filter fun q =>
        decide (q ∈ s.available_shots)

/-- `identify_sunk_ship`: decrement `ships_dict[len(current_hits)]` when
the key is present with a positive count. -/
def identify_sunk_ship (s : Strategy) : Strategy :=
  match dictGet s.ships_dict s.current_hits.length with
  | some v => if 0 < v then { s with ships_dict := dictSet s.ships_dict s.current_hits.length (v - 1) } else s
  | none => s

/-- One neighbour step of `mark_surrounding_cells`: if in bounds, remove
the cell from `available_shots` and mark it `M` on the opponent model. -/
def markCell (t : Strategy) (c : Coord) : Strategy :=
  if inb t.cols t.rows c.1 c.2 then
    { t with available_shots := t.available_shots.erase c,
             enemy_board := setc2 t.enemy_board c.1 c.2 'M' }
  else t

/-- `mark_surrounding_cells`: process the four orthogonal neighbours of
every cell of `current_hits`. -/
def mark_surrounding_cells (s : Strategy) : Strategy :=
  s.current_hits.foldl (fun t c => (neighbors4 c).foldl markCell t) s

/-- `register_attack(x, y, is_hit, is_sunk)`; the `none` branch of the
board write models the `IndexError` escape after the first two updates
have already happened. -/
def register_attack (s : Strategy) (x y : Int) (is_hit is_sunk : Bool) : Strategy :=
  let s1 : Strategy :=
    { s with shots_fired := insert (x, y) s.shots_fired,
             available_shots := s.available_shots.erase (x, y) }
  match pySet2D s1.enemy_board x y (if is_hit then 'H' else 'M') with
  | none => s1
  | some eb =>
    let s2 : Strategy := { s1 with enemy_board := eb }
    if is_hit then
      let s3 : Strategy := { s2 with current_hits := s2.current_hits ++ [(x, y)] }
      if is_sunk then
        let s5 : Strategy := mark_surrounding_cells (identify_sunk_ship s3)
        { s5 with hit_queue := [], current_hits := [] }
      else
        { s3 with hit_queue := s3.hit_queue ++ get_target_cells s3 }
    else
      { s2 with missed_shots := insert (x, y) s2.missed_shots }

/-- `get_enemy_board`. -/
def get_enemy_board (s : Strategy) : List (List Char) := s.enemy_board

/-- `get_remaining_ships`. -/
def get_remaining_ships (s : Strategy) : List (Nat × Nat) := s.ships_dict

/-- `all_ships_sunk`: `all(count == 0 for count in self.ships_dict.values())`. -/
def all_ships_sunk (s : Strategy) : Bool :=
  s.ships_dict.all fun e => e.2 == 0

/-! ### Interaction protocols -/

/-- States reachable by arbitrary use of the public mutating operations:
construction, `get_next_attack` (any random pick), and `register_attack`
with arbitrary arguments; the query methods do not change state. -/
inductive Reach : Strategy → Prop where
  | init (rows cols : Nat) (census : List (Nat × Nat)) : Reach (Strategy.init rows cols census)
  | next (s : Strategy) (pick : Coord) : Reach s → Reach (get_next_attack s pick).2
  | register (s : Strategy) (x y : Int) (hit sunk : Bool) :
      Reach s → Reach (register_attack s x y hit sunk)

/-- States reachable under the firing protocol: every `register_attack`
uses exactly the coordinate just returned by `get_next_attack`, with
arbitrary reported outcomes. -/
inductive ProtoReach : Strategy → Prop where
  | init (rows cols : Nat) (census : List (Nat × Nat)) : ProtoReach (Strategy.init rows cols census)
  | step (s : Strategy) (pick c : Coord) (hit sunk : Bool) :
      ProtoReach s → (get_next_attack s pick).1 = some c →
      ProtoReach (register_attack (get_next_attack s pick).2 c.1 c.2 hit sunk)

/-- The firing protocol further disciplined so that a hit reported on a
random (hunt-mode) shot only ever starts a new run: when `hit_queue` is
empty, a shot may be reported a hit only if `current_hits` is empty. -/
inductive ProtoReachD : Strategy → Prop where
  | init (rows cols : Nat) (census : List (Nat × Nat)) : ProtoReachD (Strategy.init rows cols census)
  | stepQ (s : Strategy) (c : Coord) (rest : List Coord) (hit sunk : Bool) :
      ProtoReachD s → s.hit_queue = c :: rest →
      ProtoReachD (register_attack { s with hit_queue := rest } c.1 c.2 hit sunk)
  | stepRandMiss (s : Strategy) (pick : Coord) (sunk : Bool) :
      ProtoReachD s → s.hit_queue = [] → pick ∈ s.available_shots →
      ProtoReachD (register_attack s pick.1 pick.2 false sunk)
  | stepRandHit (s : Strategy) (pick : Coord) (sunk : Bool) :
      ProtoReachD s → s.hit_queue = [] → s.current_hits = [] → pick ∈ s.available_shots →
      ProtoReachD (register_attack s pick.1 pick.2 true sunk)

/-- Collinearity in the sense of the targeting policy: all coordinates
share one x or all share one y. -/
def collinearB (l : List Coord) : Bool :=
  match l with
  | [] => true
  | h :: _ => (l.all fun c => c.1 == h.1) || (l.all fun c => c.2 == h.2)

/-- Two coordinates share a row or a column. -/
def sharesAxisB (a c : Coord) : Bool :=
  a.1 == c.1 || a.2 == c.2

/-- The alignment invariant of the targeting state: every current hit and
every queued candidate shares a row or column with the first hit of the
current run, and the queue is empty whenever no run is open. -/
def hitsAlignedB (s : Strategy) : Bool :=
  match s.current_hits with
  | [] => s.hit_queue.isEmpty
  | h :: _ =>
    (s.current_hits.all fun c => sharesAxisB c h) &&
    (s.hit_queue.all fun q => sharesAxisB q h)

/-! ### Concrete interaction traces used by individual claims -/

/-- Targeter of the end-to-end scenario: census one ship of size 2. -/
def sC8a : Strategy := Strategy.init 10 10 [(2, 1)]

/-- After `register_attack(3, 3, True, False)`. -/
def sC8b : Strategy := register_attack sC8a 3 3 true false

/-- After the sinking `register_attack(4, 3, True, True)`. -/
def sC8c : Strategy := register_attack sC8b 4 3 true true

/-- Start of the protocol trace refuting hit collinearity. -/
def sC4a : Strategy := Strategy.init 10 10 [(3, 1)]

/-- Random shot at (5,5), reported a hit. -/
def sC4b : Strategy := register_attack (get_next_attack sC4a (5, 5)).2 5 5 true false

/-- Queued shot at (4,5), reported a hit. -/
def sC4c : Strategy := register_attack (get_next_attack sC4b (0, 0)).2 4 5 true false

/-- Queued shot at (6,5), reported a miss. -/
def sC4d : Strategy := register_attack (get_next_attack sC4c (0, 0)).2 6 5 false false

/-- Queued stale shot at (5,4), reported a hit: the current hits now form
an L shape. -/
def sC4e : Strategy := register_attack (get_next_attack sC4d (0, 0)).2 5 4 true false

/-- Start of the protocol trace exhibiting a duplicated queue entry. -/
def sC10a : Strategy := Strategy.init 10 10 [(3, 1)]

/-- Random shot at (5,5), reported a hit. -/
def sC10b : Strategy := register_attack (get_next_attack sC10a (5, 5)).2 5 5 true false

/-- Queued shot at (4,5), reported a hit; (6,5) is now queued twice. -/
def sC10c : Strategy := register_attack (get_next_attack sC10b (0, 0)).2 4 5 true false

/-- Queued shot at (6,5), reported a miss. -/
def sC10d : Strategy := register_attack (get_next_attack sC10c (0, 0)).2 6 5 false false

/-- Queued shot at (5,4), reported a miss. -/
def sC10e : Strategy := register_attack (get_next_attack sC10d (0, 0)).2 5 4 false false

/-- Queued shot at (5,6), reported a miss. -/
def sC10f : Strategy := register_attack (get_next_attack sC10e (0, 0)).2 5 6 false false

/-- Queued shot at (3,5), reported a miss; the duplicate (6,5) is still
queued although already fired at. -/
def sC10g : Strategy := register_attack (get_next_attack sC10f (0, 0)).2 3 5 false false

/-! ## List primitive lemmas -/

theorem length_setNth {α : Type} (l : List α) (n : Nat) (v : α) :
    (setNth l n v).length = l.length := by
  induction l generalizing n with
  | nil => rfl
  | cons a t ih => cases n with
    | zero => rfl
    | succ m => simp [setNth, ih]

theorem setNth_oob {α : Type} (l : List α) (n : Nat) (v : α) (h : l.length ≤ n) :
    setNth l n v = l := by
  induction l generalizing n with
  | nil => rfl
  | cons a t ih => cases n with
    | zero => simp at h
    | succ m => simp only [setNth, List.cons.injEq, true_and]; exact ih m (by simpa using h)

theorem nthD_setNth_self {α : Type} (l : List α) (n : Nat) (v d : α) (h : n < l.length) :
    nthD (setNth l n v) n d = v := by
  induction l generalizing n with
  | nil => simp at h
  | cons a t ih => cases n with
    | zero => rfl
    | succ m => exact ih m (by simpa using h)

theorem nthD_setNth_other {α : Type} (l : List α) (n m : Nat) (v d : α) (h : n ≠ m) :
    nthD (setNth l n v) m d = nthD l m d := by
  induction l generalizing n m with
  | nil => rfl
  | cons a t ih =>
    cases n with
    | zero => cases m with
      | zero => exact absurd rfl h
      | succ k => rfl
    | succ j => cases m with
      | zero => rfl
      | succ k => exact ih j k (by omega)

theorem nthD_setNth_cases {α : Type} (l : List α) (n m : Nat) (v d : α) :
    (n = m ∧ n < l.length ∧ nthD (setNth l n v) m d = v) ∨
      nthD (setNth l n v) m d = nthD l m d := by
  by_cases he : n = m
  · subst he
    by_cases hl : n < l.length
    · exact Or.inl ⟨rfl, hl, nthD_setNth_self l n v d hl⟩
    · exact Or.inr (by rw [setNth_oob l n v (by omega)])
  · exact Or.inr (nthD_setNth_other l n m v d he)

theorem mem_setNth {α : Type} (l : List α) (n : Nat) (v a : α) (h : a ∈ setNth l n v) :
    a ∈ l ∨ a = v := by
  induction l generalizing n with
  | nil => simp [setNth] at h
  | cons b t ih =>
    cases n with
    | zero =>
      rcases List.mem_cons.1 h with h1 | h1
      · exact Or.inr h1
      · exact Or.inl (List.mem_cons_of_mem b h1)
    | succ m =>
      rcases List.mem_cons.1 h with h1 | h1
      · exact Or.inl (h1 ▸ List.mem_cons_self b t)
      · rcases ih m h1 with h2 | h2
        · exact Or.inl (List.mem_cons_of_mem b h2)
        · exact Or.inr h2

theorem nthD_mem {α : Type} (l : List α) (n : Nat) (d : α) (h : n < l.length) :
    nthD l n d ∈ l := by
  induction l generalizing n with
  | nil => simp at h
  | cons a t ih => cases n with
    | zero => exact List.mem_cons_self a t
    | succ m => exact List.mem_cons_of_mem a (ih m (by simpa using h))

theorem count_setNth_zero (r : List Nat) (i v : Nat) (hi : i < r.length) (hv : v ≠ 0)
    (h0 : nthD r i 0 = 0) : (setNth r i v).count 0 + 1 = r.count 0 := by
  induction r generalizing i with
  | nil => simp at hi
  | cons a t ih =>
    cases i with
    | zero =>
      have ha : a = 0 := h0
      simp [setNth, List.count_cons, ha, hv]
    | succ m =>
      have := ih m (by simpa using hi) h0
      simp only [setNth, List.count_cons]
      omega

theorem sum_map_setNth {α : Type} (f : List α → Nat) (d0 : List α) :
    ∀ (b : List (List α)) (j : Nat) (r' : List α), j < b.length →
      ((setNth b j r').map f).sum + f (nthD b j d0) = (b.map f).sum + f r' := by
  intro b
  induction b with
  | nil => intro j r' h; simp at h
  | cons a t ih =>
    intro j r' h
    cases j with
    | zero => simp [setNth, nthD]; omega
    | succ m =>
      have := ih m r' (by simpa using h)
      simp only [setNth, nthD, List.map_cons, List.sum_cons]
      omega

theorem nthD_replicate {α : Type} (n i : Nat) (a d : α) :
    nthD (List.replicate n a) i d = a ∨ nthD (List.replicate n a) i d = d := by
  induction n generalizing i with
  | zero => exact Or.inr rfl
  | succ m ih =>
    cases i with
    | zero => exact Or.inl rfl
    | succ k => simpa [List.replicate_succ, nthD] using ih k

/-! ## 2D grid lemmas -/

theorem wf_setc2 {α : Type} (b : List (List α)) (x y : Int) (v : α) (R C : Nat)
    (hlen : b.length = R) (hrow : ∀ r ∈ b, r.length = C) :
    (setc2 b x y v).length = R ∧ ∀ r ∈ setc2 b x y v, r.length = C := by
  constructor
  · rw [setc2, length_setNth, hlen]
  · intro r hr
    by_cases hy : y.toNat < b.length
    · rcases mem_setNth _ _ _ _ hr with h | h
      · exact hrow r h
      · have hm := nthD_mem b y.toNat [] hy
        rw [h, length_setNth]
        exact hrow _ hm
    · rw [setc2, setNth_oob b y.toNat _ (by omega)] at hr
      exact hrow r hr

theorem cell2_setc2_self {α : Type} (b : List (List α)) (x y : Int) (v d : α)
    (hy : y.toNat < b.length) (hx : x.toNat < (nthD b y.toNat []).length) :
    cell2 (setc2 b x y v) d x y = v := by
  rw [cell2, setc2, nthD_setNth_self b y.toNat _ [] hy, nthD_setNth_self _ x.toNat v d hx]

theorem cell2_setc2_other {α : Type} (b : List (List α)) (x y u w : Int) (v d : α)
    (hu : 0 ≤ u) (hw : 0 ≤ w) (hx : 0 ≤ x) (hy : 0 ≤ y) (hne : (u, w) ≠ (x, y)) :
    cell2 (setc2 b x y v) d u w = cell2 b d u w := by
  by_cases hrow : y.toNat = w.toNat
  · have hyw : y = w := by omega
    subst hyw
    have hxu : x.toNat ≠ u.toNat := by
      have hne2 : x ≠ u := fun h => hne (by rw [h])
      omega
    rw [cell2, setc2]
    rcases nthD_setNth_cases b y.toNat y.toNat (setNth (nthD b y.toNat []) x.toNat v) [] with
      ⟨_, _, hc⟩ | hc
    · rw [hc, nthD_setNth_other _ x.toNat u.toNat v d hxu]; rfl
    · rw [hc]; rfl
  · rw [cell2, setc2, nthD_setNth_other b y.toNat w.toNat _ [] hrow]; rfl

theorem cell2_setc2_or {α : Type} (b : List (List α)) (x y u w : Int) (v d : α) :
    cell2 (setc2 b x y v) d u w = v ∨ cell2 (setc2 b x y v) d u w = cell2 b d u w := by
  rw [cell2, setc2]
  rcases nthD_setNth_cases b y.toNat w.toNat (setNth (nthD b y.toNat []) x.toNat v) [] with
    ⟨he, _, hc⟩ | hc
  · rw [hc]
    rcases nthD_setNth_cases (nthD b y.toNat []) x.toNat u.toNat v d with ⟨_, _, hc2⟩ | hc2
    · exact Or.inl hc2
    · rw [hc2, he]; exact Or.inr rfl
  · rw [hc]; exact Or.inr rfl

theorem cell2_mkBoard (rows cols : Nat) (u w : Int) :
    cell2 (mkBoard rows cols) 0 u w = 0 := by
  rw [cell2, mkBoard]
  rcases nthD_replicate rows w.toNat (List.replicate cols 0) [] with h | h <;> rw [h]
  · rcases nthD_replicate cols u.toNat (0 : Nat) 0 with h2 | h2 <;> rw [h2]
  · cases u.toNat <;> rfl

theorem wf_mkBoard (rows cols : Nat) :
    (mkBoard rows cols).length = rows ∧ ∀ r ∈ mkBoard rows cols, r.length = cols := by
  refine ⟨List.length_replicate rows _, fun r hr => ?_⟩
  rw [List.eq_of_mem_replicate hr, List.length_replicate]

theorem count_zero_replicate (n : Nat) : (List.replicate n (0 : Nat)).count 0 = n := by
  induction n with
  | zero => rfl
  | succ m ih => simp [List.replicate_succ, List.count_cons, ih]

theorem empty_mkBoard (rows cols : Nat) :
    board_stats_empty (mkBoard rows cols) = rows * cols := by
  induction rows with
  | zero => simp [board_stats_empty, mkBoard]
  | succ m ih =>
    rw [board_stats_empty, mkBoard, List.replicate_succ, List.map_cons, List.sum_cons,
      count_zero_replicate]
    rw [board_stats_empty, mkBoard] at ih
    rw [ih]
    ring

/-! ## Shape geometry lemmas -/

theorem listMin_map_sub (f : (Int × Int) → Int) (c : Int) :
    ∀ s : Shape, s ≠ [] → listMin (s.map fun p => f p - c) = listMin (s.map f) - c
  | [], h => absurd rfl h
  | [p], _ => by simp [listMin]
  | p :: q :: t, _ => by
    have ih := listMin_map_sub f c (q :: t) (by simp)
    have h1 : listMin ((p :: q :: t).map fun p => f p - c) =
        min (f p - c) (listMin ((q :: t).map fun p => f p - c)) := rfl
    have h2 : listMin ((p :: q :: t).map f) = min (f p) (listMin ((q :: t).map f)) := rfl
    rw [h1, h2, ih, min_sub_sub_right]

theorem minX_rotate (s : Shape) (h : s ≠ []) : minX (rotate s) = 0 := by
  have hc : (Prod.fst ∘ fun p : Int × Int => (p.2 - minY s, -p.1 + minX s)) =
      fun p : Int × Int => p.2 - minY s := rfl
  have hm : listMin (s.map Prod.snd) = minY s := rfl
  rw [minX, rotate, List.map_map, hc, listMin_map_sub Prod.snd (minY s) s h, hm, sub_self]

theorem minX_mirror (s : Shape) (h : s ≠ []) : minX (mirror s) = 0 := by
  have hc : (Prod.fst ∘ fun p : Int × Int => (p.1 - minX s, -p.2)) =
      fun p : Int × Int => p.1 - minX s := rfl
  have hm : listMin (s.map Prod.fst) = minX s := rfl
  rw [minX, mirror, List.map_map, hc, listMin_map_sub Prod.fst (minX s) s h, hm, sub_self]

theorem rotate_inj (s : Shape) :
    Function.Injective fun p : Int × Int => (p.2 - minY s, -p.1 + minX s) := by
  intro a b hab
  obtain ⟨a1, a2⟩ := a
  obtain ⟨b1, b2⟩ := b
  simp only [Prod.mk.injEq] at hab ⊢
  omega

theorem mirror_inj (s : Shape) :
    Function.Injective fun p : Int × Int => (p.1 - minX s, -p.2) := by
  intro a b hab
  obtain ⟨a1, a2⟩ := a
  obtain ⟨b1, b2⟩ := b
  simp only [Prod.mk.injEq] at hab ⊢
  omega

theorem rotate_nodup (s : Shape) (h : s.Nodup) : (rotate s).Nodup := h.map (rotate_inj s)

theorem mirror_nodup (s : Shape) (h : s.Nodup) : (mirror s).Nodup := h.map (mirror_inj s)

theorem rotate_length (s : Shape) : (rotate s).length = s.length := List.length_map s _

theorem mirror_length (s : Shape) : (mirror s).length = s.length := List.length_map s _

theorem getShape_nodup (shipId : Nat) : (getShape shipId).Nodup := by
  unfold getShape
  split <;> decide

/-! ## Soundness of the placement validity check -/

theorem can_place_ship_sound (rows cols : Nat) (b : List (List Nat)) (x y : Int) (s : Shape)
    (hcan : can_place_ship rows cols b x y s = true) (p : Int × Int) (hp : p ∈ s) :
    (0 ≤ x + p.1 ∧ x + p.1 < (cols : Int) ∧ 0 ≤ y + p.2 ∧ y + p.2 < (rows : Int)) ∧
    cell2 b 0 (x + p.1) (y + p.2) = 0 ∧
    (∀ u w : Int, 0 ≤ u → u < (cols : Int) → 0 ≤ w → w < (rows : Int) →
      cell2 b 0 u w ≠ 0 → 2 ≤ cheb (x + p.1, y + p.2) (u, w)) := by
  rw [can_place_ship, List.all_eq_true] at hcan
  have h := hcan p hp
  rw [Bool.and_eq_true, Bool.and_eq_true] at h
  obtain ⟨⟨hb, hc⟩, hn⟩ := h
  rw [inb, decide_eq_true_eq] at hb
  rw [beq_iff_eq] at hc
  refine ⟨hb, hc, ?_⟩
  intro u w hu huc hw hwr hocc
  by_contra hlt
  have hmax : cheb (x + p.1, y + p.2) (u, w) < 2 := by omega
  simp only [cheb] at hmax
  have h1 : ((x + p.1) - u).natAbs ≤ 1 ∧ ((y + p.2) - w).natAbs ≤ 1 := by
    rcases Nat.max_lt.1 hmax with ⟨g1, g2⟩
    omega
  have hu3 : u = (x + p.1) - 1 ∨ u = x + p.1 ∨ u = (x + p.1) + 1 := by omega
  have hw3 : w = (y + p.2) - 1 ∨ w = y + p.2 ∨ w = (y + p.2) + 1 := by omega
  have hmem : (u, w) ∈ nbhd9 (x + p.1) (y + p.2) := by
    rcases hu3 with h | h | h <;> rcases hw3 with g | g | g <;> subst h <;> subst g <;>
      simp [nbhd9]
  rw [List.all_eq_true] at hn
  have h2 := hn (u, w) hmem
  rw [Bool.or_eq_true, Bool.not_eq_true', beq_iff_eq] at h2
  rcases h2 with h2 | h2
  · rw [inb, decide_eq_false_iff_not] at h2
    exact h2 ⟨hu, huc, hw, hwr⟩
  · exact hocc h2

/-! ## Stamping lemmas -/

theorem stampShape_cons (b : List (List Nat)) (x y : Int) (p : Int × Int) (t : Shape)
    (shipId : Nat) :
    stampShape b x y (p :: t) shipId =
      stampShape (setc2 b (x + p.1) (y + p.2) shipId) x y t shipId := rfl

theorem wf_stampShape (b : List (List Nat)) (x y : Int) (s : Shape) (shipId : Nat)
    (R C : Nat) (hlen : b.length = R) (hrow : ∀ r ∈ b, r.length = C) :
    (stampShape b x y s shipId).length = R ∧ ∀ r ∈ stampShape b x y s shipId, r.length = C := by
  induction s generalizing b with
  | nil => exact ⟨hlen, hrow⟩
  | cons p t ih =>
    rw [stampShape_cons]
    have hw := wf_setc2 b (x + p.1) (y + p.2) shipId R C hlen hrow
    exact ih _ hw.1 hw.2

theorem cell2_stamp_not_mem (b : List (List Nat)) (x y : Int) (s : Shape) (shipId : Nat)
    (u w : Int) (hu : 0 ≤ u) (hw : 0 ≤ w)
    (hnn : ∀ p ∈ s, 0 ≤ x + p.1 ∧ 0 ≤ y + p.2)
    (hnm : (u, w) ∉ absCells x y s) :
    cell2 (stampShape b x y s shipId) 0 u w = cell2 b 0 u w := by
  induction s generalizing b with
  | nil => rfl
  | cons p t ih =>
    rw [absCells, List.map_cons, List.mem_cons] at hnm
    push_neg at hnm
    rw [stampShape_cons]
    have hstep := ih (setc2 b (x + p.1) (y + p.2) shipId)
      (fun q hq => hnn q (List.mem_cons_of_mem p hq)) hnm.2
    rw [hstep]
    exact cell2_setc2_other b (x + p.1) (y + p.2) u w shipId 0 hu hw
      (hnn p (List.mem_cons_self p t)).1 (hnn p (List.mem_cons_self p t)).2 hnm.1

theorem cell2_stamp_mem (rows cols : Nat) (b : List (List Nat)) (x y : Int) (s : Shape)
    (shipId : Nat) (hlen : b.length = rows) (hrow : ∀ r ∈ b, r.length = cols)
    (hin : ∀ p ∈ s, 0 ≤ x + p.1 ∧ x + p.1 < (cols : Int) ∧ 0 ≤ y + p.2 ∧ y + p.2 < (rows : Int))
    (u w : Int) (hm : (u, w) ∈ absCells x y s) :
    cell2 (stampShape b x y s shipId) 0 u w = shipId := by
  induction s generalizing b with
  | nil => simp [absCells] at hm
  | cons p t ih =>
    have hw2 := wf_setc2 b (x + p.1) (y + p.2) shipId rows cols hlen hrow
    rw [absCells, List.map_cons, List.mem_cons] at hm
    by_cases ht : (u, w) ∈ absCells x y t
    · rw [stampShape_cons]
      exact ih _ hw2.1 hw2.2 (fun q hq => hin q (List.mem_cons_of_mem p hq)) ht
    · rcases hm with hm | hm
      · obtain ⟨h1, h2⟩ := Prod.mk.injEq .. ▸ hm
        have hb := hin p (List.mem_cons_self p t)
        rw [stampShape_cons,
          cell2_stamp_not_mem _ x y t shipId u w (by omega) (by omega)
            (fun q hq => ⟨(hin q (List.mem_cons_of_mem p hq)).1,
              (hin q (List.mem_cons_of_mem p hq)).2.2.1⟩) ht,
          h1, h2]
        refine cell2_setc2_self b (x + p.1) (y + p.2) shipId 0 ?_ ?_
        · omega
        · have hmem := nthD_mem b (y + p.2).toNat [] (by omega)
          have := hrow _ hmem
          omega
      · exact absurd hm ht

theorem empty_setc2 (b : List (List Nat)) (x y : Int) (v : Nat) (hv : v ≠ 0)
    (hy : y.toNat < b.length) (hx : x.toNat < (nthD b y.toNat []).length)
    (h0 : cell2 b 0 x y = 0) :
    board_stats_empty (setc2 b x y v) + 1 = board_stats_empty b := by
  have hs := sum_map_setNth (fun r => r.count 0) [] b y.toNat
    (setNth (nthD b y.toNat []) x.toNat v) hy
  have hs2 : ((setNth b y.toNat (setNth (nthD b y.toNat []) x.toNat v)).map
        fun r => r.count 0).sum + (nthD b y.toNat []).count 0
      = (b.map fun r => r.count 0).sum + (setNth (nthD b y.toNat []) x.toNat v).count 0 := hs
  have hc := count_setNth_zero (nthD b y.toNat []) x.toNat v hx hv h0
  rw [board_stats_empty, setc2, board_stats_empty]
  omega

theorem empty_stamp (rows cols : Nat) (b : List (List Nat)) (x y : Int) (s : Shape)
    (shipId : Nat) (hid : shipId ≠ 0)
    (hlen : b.length = rows) (hrow : ∀ r ∈ b, r.length = cols)
    (hin : ∀ p ∈ s, 0 ≤ x + p.1 ∧ x + p.1 < (cols : Int) ∧ 0 ≤ y + p.2 ∧ y + p.2 < (rows : Int))
    (hfresh : ∀ p ∈ s, cell2 b 0 (x + p.1) (y + p.2) = 0)
    (hnd : (absCells x y s).Nodup) :
    board_stats_empty (stampShape b x y s shipId) + s.length = board_stats_empty b := by
  induction s generalizing b with
  | nil => simp [stampShape]
  | cons p t ih =>
    have hb := hin p (List.mem_cons_self p t)
    have hw2 := wf_setc2 b (x + p.1) (y + p.2) shipId rows cols hlen hrow
    rw [absCells, List.map_cons] at hnd
    have hnd2 := List.nodup_cons.1 hnd
    have hrowlen : (x + p.1).toNat < (nthD b (y + p.2).toNat []).length := by
      have hmem := nthD_mem b (y + p.2).toNat [] (by omega)
      have := hrow _ hmem
      omega
    have hstep := empty_setc2 b (x + p.1) (y + p.2) shipId hid (by omega) hrowlen
      (hfresh p (List.mem_cons_self p t))
    have hfresh2 : ∀ q ∈ t, cell2 (setc2 b (x + p.1) (y + p.2) shipId) 0 (x + q.1) (y + q.2) = 0 := by
      intro q hq
      have hq2 := hin q (List.mem_cons_of_mem p hq)
      have hne : ((x + q.1 : Int), (y + q.2 : Int)) ≠ (x + p.1, y + p.2) := by
        intro hcontra
        exact hnd2.1 (hcontra ▸ List.mem_map_of_mem _ hq)
      rw [cell2_setc2_other b (x + p.1) (y + p.2) _ _ shipId 0 (by omega) (by omega)
        (by omega) (by omega) hne]
      exact hfresh q (List.mem_cons_of_mem p hq)
    have := ih _ hw2.1 hw2.2 (fun q hq => hin q (List.mem_cons_of_mem p hq)) hfresh2 hnd2.2
    rw [stampShape_cons]
    simp only [List.length_cons]
    omega

theorem absCells_nodup (x y : Int) (s : Shape) (h : s.Nodup) : (absCells x y s).Nodup := by
  refine h.map ?_
  intro a b hab
  obtain ⟨a1, a2⟩ := a
  obtain ⟨b1, b2⟩ := b
  simp only [Prod.mk.injEq] at hab ⊢
  omega

theorem absCells_length (x y : Int) (s : Shape) : (absCells x y s).length = s.length :=
  List.length_map s _

/-! ## Orientation enumeration lemmas -/

theorem tryRotations_spec (rows cols : Nat) (b : List (List Nat)) (x y : Int) :
    ∀ (n : Nat) (s0 : Shape) (r : Option Shape) (t : Shape),
      tryRotations rows cols b x y n s0 = (r, t) →
      (t.length = s0.length ∧ (s0.Nodup → t.Nodup)) ∧
      ∀ s, r = some s →
        can_place_ship rows cols b x y s = true ∧ s.length = s0.length ∧ (s0.Nodup → s.Nodup)
  | 0, s0, r, t, h => by
    rw [tryRotations] at h
    obtain ⟨h1, h2⟩ := Prod.mk.injEq .. ▸ h
    subst h1; subst h2
    exact ⟨⟨rfl, id⟩, fun s hs => by simp at hs⟩
  | n + 1, s0, r, t, h => by
    rw [tryRotations] at h
    by_cases hc : can_place_ship rows cols b x y s0 = true
    · rw [if_pos hc] at h
      obtain ⟨h1, h2⟩ := Prod.mk.injEq .. ▸ h
      subst h1; subst h2
      refine ⟨⟨rfl, id⟩, fun s hs => ?_⟩
      obtain rfl : s0 = s := by simpa using hs
      exact ⟨hc, rfl, id⟩
    · rw [if_neg hc] at h
      have := tryRotations_spec rows cols b x y n (rotate s0) r t h
      refine ⟨⟨this.1.1.trans (rotate_length s0), fun hnd => this.1.2 (rotate_nodup s0 hnd)⟩,
        fun s hs => ?_⟩
      obtain ⟨g1, g2, g3⟩ := this.2 s hs
      exact ⟨g1, g2.trans (rotate_length s0), fun hnd => g3 (rotate_nodup s0 hnd)⟩

theorem tryOrient_spec (rows cols : Nat) (b : List (List Nat)) (x y : Int) (s0 s : Shape)
    (h : tryOrient rows cols b x y s0 = some s) :
    can_place_ship rows cols b x y s = true ∧ s.length = s0.length ∧ (s0.Nodup → s.Nodup) := by
  rw [tryOrient] at h
  rcases h1 : tryRotations rows cols b x y 4 s0 with ⟨r1, t1⟩
  rw [h1] at h
  cases r1 with
  | some s1 =>
    have hs : s1 = s := by simpa using h
    subst hs
    exact (tryRotations_spec rows cols b x y 4 s0 (some s1) t1 h1).2 s1 rfl
  | none =>
    rcases h2 : tryRotations rows cols b x y 4 (mirror t1) with ⟨r2, t2⟩
    simp only [h2] at h
    have spec1 := tryRotations_spec rows cols b x y 4 s0 none t1 h1
    have spec2 := (tryRotations_spec rows cols b x y 4 (mirror t1) r2 t2 h2).2 s h
    refine ⟨spec2.1, ?_, ?_⟩
    · rw [spec2.2.1, mirror_length, spec1.1.1]
    · intro hnd
      exact spec2.2.2 (mirror_nodup t1 (spec1.1.2 hnd))

/-! ## The placement invariant -/

theorem cheb_comm (a c : Coord) : cheb a c = cheb c a := by
  have h1 : (a.1 - c.1).natAbs = (c.1 - a.1).natAbs := by omega
  have h2 : (a.2 - c.2).natAbs = (c.2 - a.2).natAbs := by omega
  rw [cheb, cheb, h1, h2]

theorem cheb_self (a : Coord) : cheb a a = 0 := by
  simp [cheb]

theorem Inv_init (rows cols : Nat) : Inv rows cols (mkBoard rows cols) [] := by
  refine ⟨(wf_mkBoard rows cols).1, (wf_mkBoard rows cols).2, by simp, by simp, by simp,
    by simp, ?_, List.Pairwise.nil, by simpa using empty_mkBoard rows cols⟩
  intro u w _ _ _ _ hocc
  exact absurd (cell2_mkBoard rows cols u w) hocc

theorem Inv_step (rows cols : Nat) (b : List (List Nat)) (ps : List (Nat × List Coord))
    (inv : Inv rows cols b ps) (shipId : Nat) (hid : shipId ≠ 0) (x y : Int) (s : Shape)
    (hcan : can_place_ship rows cols b x y s = true) (hnd : s.Nodup) :
    Inv rows cols (stampShape b x y s shipId) (ps ++ [(shipId, absCells x y s)]) := by
  have hoff : ∀ p ∈ s,
      0 ≤ x + p.1 ∧ x + p.1 < (cols : Int) ∧ 0 ≤ y + p.2 ∧ y + p.2 < (rows : Int) :=
    fun p hp => (can_place_ship_sound rows cols b x y s hcan p hp).1
  have hfreshoff : ∀ p ∈ s, cell2 b 0 (x + p.1) (y + p.2) = 0 :=
    fun p hp => (can_place_ship_sound rows cols b x y s hcan p hp).2.1
  have habs_in : ∀ c ∈ absCells x y s,
      0 ≤ c.1 ∧ c.1 < (cols : Int) ∧ 0 ≤ c.2 ∧ c.2 < (rows : Int) := by
    intro c hc
    obtain ⟨p, hp, rfl⟩ := List.mem_map.1 hc
    exact hoff p hp
  have habs_fresh : ∀ c ∈ absCells x y s, cell2 b 0 c.1 c.2 = 0 := by
    intro c hc
    obtain ⟨p, hp, rfl⟩ := List.mem_map.1 hc
    exact hfreshoff p hp
  have hfar : ∀ c ∈ absCells x y s, ∀ u w : Int, 0 ≤ u → u < (cols : Int) → 0 ≤ w →
      w < (rows : Int) → cell2 b 0 u w ≠ 0 → 2 ≤ cheb c (u, w) := by
    intro c hc
    obtain ⟨p, hp, rfl⟩ := List.mem_map.1 hc
    exact (can_place_ship_sound rows cols b x y s hcan p hp).2.2
  have hwf := wf_stampShape b x y s shipId rows cols inv.wf_len inv.wf_row
  have hcellold : ∀ q ∈ ps, ∀ c ∈ q.2, cell2 (stampShape b x y s shipId) 0 c.1 c.2 = q.1 := by
    intro q hq c hc
    obtain ⟨c1, c2⟩ := c
    have hnotin : ((c1 : Int), (c2 : Int)) ∉ absCells x y s := by
      intro hin
      have h0 := habs_fresh _ hin
      have h1 := inv.cellEq q hq _ hc
      rw [h0] at h1
      exact inv.ids q hq h1.symm
    rw [cell2_stamp_not_mem b x y s shipId c1 c2 (inv.bounded q hq _ hc).1
      (inv.bounded q hq _ hc).2.2.1 (fun p hp => ⟨(hoff p hp).1, (hoff p hp).2.2.1⟩) hnotin]
    exact inv.cellEq q hq _ hc
  refine ⟨hwf.1, hwf.2, ?_, ?_, ?_, ?_, ?_, ?_, ?_⟩
  · intro q hq
    rcases List.mem_append.1 hq with h | h
    · exact inv.ids q h
    · simp only [List.mem_singleton] at h
      rw [h]
      exact hid
  · intro q hq
    rcases List.mem_append.1 hq with h | h
    · exact inv.cnodup q h
    · simp only [List.mem_singleton] at h
      rw [h]
      exact absCells_nodup x y s hnd
  · intro q hq
    rcases List.mem_append.1 hq with h | h
    · exact inv.bounded q h
    · simp only [List.mem_singleton] at h
      rw [h]
      exact habs_in
  · intro q hq
    rcases List.mem_append.1 hq with h | h
    · exact hcellold q h
    · simp only [List.mem_singleton] at h
      rw [h]
      intro c hc
      obtain ⟨c1, c2⟩ := c
      exact cell2_stamp_mem rows cols b x y s shipId inv.wf_len inv.wf_row hoff c1 c2 hc
  · intro u w hu huc hww hwr hocc
    by_cases hmem : ((u : Int), (w : Int)) ∈ absCells x y s
    · exact ⟨(shipId, absCells x y s), List.mem_append_right _ (List.mem_singleton.2 rfl), hmem⟩
    · rw [cell2_stamp_not_mem b x y s shipId u w hu hww
        (fun p hp => ⟨(hoff p hp).1, (hoff p hp).2.2.1⟩) hmem] at hocc
      obtain ⟨q, hq, hc⟩ := inv.occSub u w hu huc hww hwr hocc
      exact ⟨q, List.mem_append_left _ hq, hc⟩
  · rw [List.pairwise_append]
    refine ⟨inv.sep, List.pairwise_singleton _ _, ?_⟩
    intro q hq q' hq'
    simp only [List.mem_singleton] at hq'
    rw [hq']
    intro a ha c hc
    have hbnd := inv.bounded q hq a ha
    have hocc : cell2 b 0 a.1 a.2 ≠ 0 := by
      rw [inv.cellEq q hq a ha]
      exact inv.ids q hq
    have h2 := hfar c hc a.1 a.2 hbnd.1 hbnd.2.1 hbnd.2.2.1 hbnd.2.2.2 hocc
    have heta : ((a.1 : Int), (a.2 : Int)) = a := rfl
    rw [heta] at h2
    constructor
    · intro hac
      subst hac
      rw [cheb_self] at h2
      omega
    · rw [cheb_comm]
      exact h2
  · have hstamp := empty_stamp rows cols b x y s shipId hid inv.wf_len inv.wf_row hoff
      hfreshoff (absCells_nodup x y s hnd)
    have hcnt := inv.cnt
    rw [List.map_append, List.sum_append]
    simp only [List.map_cons, List.map_nil, List.sum_cons, List.sum_nil, absCells_length]
    omega

theorem Inv_placeInstance (rows cols shipId : Nat) (hid : shipId ≠ 0) :
    ∀ (n : Nat) (positions : List Coord) (b b' : List (List Nat)) (cells : List Coord)
      (ps : List (Nat × List Coord)), Inv rows cols b ps →
      placeInstance rows cols shipId n positions b = .ok (b', cells) →
      Inv rows cols b' (ps ++ [(shipId, cells)]) ∧ cells.length = (getShape shipId).length
  | 0, positions, b, b', cells, ps, inv, h => by
    simp only [placeInstance] at h
    exact Except.noConfusion h
  | n + 1, positions, b, b', cells, ps, inv, h => by
    simp only [placeInstance] at h
    split at h
    next => exact Except.noConfusion h
    next c hg =>
      split at h
      next s ho =>
        simp only [Except.ok.injEq, Prod.mk.injEq] at h
        obtain ⟨hb, hc⟩ := h
        subst hb
        subst hc
        obtain ⟨hcan, hlen, hnd⟩ := tryOrient_spec rows cols b c.1 c.2 (getShape shipId) s ho
        exact ⟨Inv_step rows cols b ps inv shipId hid c.1 c.2 s hcan (hnd (getShape_nodup shipId)),
          (absCells_length c.1 c.2 s).trans hlen⟩
      next ho =>
        exact Inv_placeInstance rows cols shipId hid n positions.dropLast b b' cells ps inv h

theorem Inv_placeCount (rows cols : Nat) (rand : Nat → List Coord) (shipId : Nat)
    (hid : shipId ≠ 0) :
    ∀ (cnt : Nat) (b : List (List Nat)) (k : Nat) (acc : List (Nat × List Coord))
      (b' : List (List Nat)) (k' : Nat) (acc' : List (Nat × List Coord)),
      Inv rows cols b acc →
      placeCount rows cols rand shipId cnt b k acc = .ok (b', k', acc') →
      Inv rows cols b' acc' ∧
      (acc'.map fun q => q.2.length).sum
        = (acc.map fun q => q.2.length).sum + cnt * (getShape shipId).length
  | 0, b, k, acc, b', k', acc', inv, h => by
    simp only [placeCount, Except.ok.injEq, Prod.mk.injEq] at h
    obtain ⟨h1, _, h3⟩ := h
    subst h1
    subst h3
    exact ⟨inv, by simp⟩
  | cnt + 1, b, k, acc, b', k', acc', inv, h => by
    simp only [placeCount] at h
    split at h
    next => exact Except.noConfusion h
    next r1 r2 hp =>
      have hstep := Inv_placeInstance rows cols shipId hid 2000 (rand k) b r1 r2 acc inv hp
      have hrec := Inv_placeCount rows cols rand shipId hid cnt r1 (k + 1)
        (acc ++ [(shipId, r2)]) b' k' acc' hstep.1 h
      refine ⟨hrec.1, ?_⟩
      rw [hrec.2, List.map_append, List.sum_append]
      simp only [List.map_cons, List.map_nil, List.sum_cons, List.sum_nil, hstep.2]
      ring

theorem Inv_placeShipsAux (rows cols : Nat) (rand : Nat → List Coord) :
    ∀ (census : List (Nat × Nat)) (b : List (List Nat)) (k : Nat)
      (acc : List (Nat × List Coord)) (b' : List (List Nat)) (k' : Nat)
      (acc' : List (Nat × List Coord)),
      Inv rows cols b acc → (∀ e ∈ census, e.1 ≠ 0) →
      placeShipsAux rows cols rand census b k acc = .ok (b', k', acc') →
      Inv rows cols b' acc' ∧
      (acc'.map fun q => q.2.length).sum
        = (acc.map fun q => q.2.length).sum
          + (census.map fun e => e.2 * (getShape e.1).length).sum
  | [], b, k, acc, b', k', acc', inv, _, h => by
    simp only [placeShipsAux, Except.ok.injEq, Prod.mk.injEq] at h
    obtain ⟨h1, _, h3⟩ := h
    subst h1
    subst h3
    exact ⟨inv, by simp⟩
  | e :: rest, b, k, acc, b', k', acc', inv, hpos, h => by
    simp only [placeShipsAux] at h
    split at h
    next => exact Except.noConfusion h
    next r1 r2 r3 hp =>
      have hstep := Inv_placeCount rows cols rand e.1 (hpos e (List.mem_cons_self e rest))
        e.2 b k acc r1 r2 r3 inv hp
      have hrec := Inv_placeShipsAux rows cols rand rest r1 r2 r3 b' k' acc' hstep.1
        (fun q hq => hpos q (List.mem_cons_of_mem e hq)) h
      refine ⟨hrec.1, ?_⟩
      rw [hrec.2, hstep.2]
      simp only [List.map_cons, List.sum_cons]
      ring

theorem place_ships_inv (rows cols : Nat) (census : List (Nat × Nat)) (rand : Nat → List Coord)
    (b : List (List Nat)) (ps : List (Nat × List Coord))
    (hpos : ∀ e ∈ census, e.1 ≠ 0)
    (h : place_ships rows cols census rand = .ok (b, ps)) :
    Inv rows cols b ps ∧
    (ps.map fun q => q.2.length).sum = (census.map fun e => e.2 * (getShape e.1).length).sum := by
  rw [place_ships] at h
  split at h
  next => exact Except.noConfusion h
  next r1 r2 r3 haux =>
    simp only [Except.ok.injEq, Prod.mk.injEq] at h
    obtain ⟨h1, h2⟩ := h
    subst h1
    subst h2
    have := Inv_placeShipsAux rows cols rand census (mkBoard rows cols) 0 [] r1 r2 r3
      (Inv_init rows cols) hpos haux
    exact ⟨this.1, by simpa using this.2⟩

/-! ## Strategy state lemmas -/

theorem identify_keeps (s : Strategy) :
    (identify_sunk_ship s).rows = s.rows ∧ (identify_sunk_ship s).cols = s.cols ∧
    (identify_sunk_ship s).enemy_board = s.enemy_board ∧
    (identify_sunk_ship s).shots_fired = s.shots_fired ∧
    (identify_sunk_ship s).missed_shots = s.missed_shots ∧
    (identify_sunk_ship s).hit_queue = s.hit_queue ∧
    (identify_sunk_ship s).current_hits = s.current_hits ∧
    (identify_sunk_ship s).available_shots = s.available_shots := by
  rw [identify_sunk_ship]
  split
  · split <;> simp
  · simp

theorem markCell_keeps (t : Strategy) (c : Coord) :
    (markCell t c).rows = t.rows ∧ (markCell t c).cols = t.cols ∧
    (markCell t c).shots_fired = t.shots_fired ∧
    (markCell t c).missed_shots = t.missed_shots ∧
    (markCell t c).hit_queue = t.hit_queue ∧
    (markCell t c).current_hits = t.current_hits ∧
    (markCell t c).ships_dict = t.ships_dict := by
  rw [markCell]
  split <;> simp

theorem markCell_avail_sub (t : Strategy) (c : Coord) :
    (markCell t c).available_shots ⊆ t.available_shots := by
  rw [markCell]
  split
  · exact Finset.erase_subset _ _
  · exact Finset.Subset.refl _

theorem markCell_wf (t : Strategy) (c : Coord)
    (hlen : t.enemy_board.length = t.rows) (hrow : ∀ r ∈ t.enemy_board, r.length = t.cols) :
    (markCell t c).enemy_board.length = t.rows ∧
    ∀ r ∈ (markCell t c).enemy_board, r.length = t.cols := by
  rw [markCell]
  split
  · exact wf_setc2 t.enemy_board c.1 c.2 'M' t.rows t.cols hlen hrow
  · exact ⟨hlen, hrow⟩

theorem markCell_eb_M (t : Strategy) (c : Coord) (u w : Int)
    (hprev : cell2 t.enemy_board '?' u w = 'M') :
    cell2 (markCell t c).enemy_board '?' u w = 'M' := by
  rw [markCell]
  split
  · rcases cell2_setc2_or t.enemy_board c.1 c.2 u w 'M' '?' with h | h
    · exact h
    · rw [h]; exact hprev
  · exact hprev

theorem markCell_eb_write (t : Strategy) (c : Coord)
    (hg : inb t.cols t.rows c.1 c.2 = true)
    (hlen : t.enemy_board.length = t.rows) (hrow : ∀ r ∈ t.enemy_board, r.length = t.cols) :
    cell2 (markCell t c).enemy_board '?' c.1 c.2 = 'M' := by
  rw [markCell, if_pos hg]
  rw [inb, decide_eq_true_eq] at hg
  refine cell2_setc2_self t.enemy_board c.1 c.2 'M' '?' (by omega) ?_
  have hmem := nthD_mem t.enemy_board c.2.toNat [] (by omega)
  have := hrow _ hmem
  omega

theorem foldl_markCell_keeps (l : List Coord) (t : Strategy) :
    (l.foldl markCell t).rows = t.rows ∧ (l.foldl markCell t).cols = t.cols ∧
    (l.foldl markCell t).shots_fired = t.shots_fired ∧
    (l.foldl markCell t).missed_shots = t.missed_shots ∧
    (l.foldl markCell t).hit_queue = t.hit_queue ∧
    (l.foldl markCell t).current_hits = t.current_hits ∧
    (l.foldl markCell t).ships_dict = t.ships_dict := by
  induction l generalizing t with
  | nil => simp
  | cons a tl ih =>
    rw [List.foldl_cons]
    have h1 := markCell_keeps t a
    have h2 := ih (markCell t a)
    exact ⟨h2.1.trans h1.1, h2.2.1.trans h1.2.1, h2.2.2.1.trans h1.2.2.1,
      h2.2.2.2.1.trans h1.2.2.2.1, h2.2.2.2.2.1.trans h1.2.2.2.2.1,
      h2.2.2.2.2.2.1.trans h1.2.2.2.2.2.1, h2.2.2.2.2.2.2.trans h1.2.2.2.2.2.2⟩

theorem foldl_markCell_avail_sub (l : List Coord) (t : Strategy) :
    (l.foldl markCell t).available_shots ⊆ t.available_shots := by
  induction l generalizing t with
  | nil => exact Finset.Subset.refl _
  | cons a tl ih =>
    rw [List.foldl_cons]
    exact (ih (markCell t a)).trans (markCell_avail_sub t a)

theorem foldl_markCell_wf (l : List Coord) (t : Strategy)
    (hlen : t.enemy_board.length = t.rows) (hrow : ∀ r ∈ t.enemy_board, r.length = t.cols) :
    (l.foldl markCell t).enemy_board.length = t.rows ∧
    ∀ r ∈ (l.foldl markCell t).enemy_board, r.length = t.cols := by
  induction l generalizing t with
  | nil => exact ⟨hlen, hrow⟩
  | cons a tl ih =>
    rw [List.foldl_cons]
    have hw := markCell_wf t a hlen hrow
    have hk := markCell_keeps t a
    have := ih (markCell t a) (by rw [hk.1]; exact hw.1) (by rw [hk.2.1]; exact hw.2)
    rw [hk.1, hk.2.1] at this
    exact this

theorem foldl_markCell_eb_M (l : List Coord) (t : Strategy) (u w : Int)
    (hprev : cell2 t.enemy_board '?' u w = 'M') :
    cell2 (l.foldl markCell t).enemy_board '?' u w = 'M' := by
  induction l generalizing t with
  | nil => exact hprev
  | cons a tl ih =>
    rw [List.foldl_cons]
    exact ih (markCell t a) (markCell_eb_M t a u w hprev)

theorem foldl_markCell_hits (l : List Coord) (t : Strategy) (c : Coord) (hc : c ∈ l)
    (hg : inb t.cols t.rows c.1 c.2 = true)
    (hlen : t.enemy_board.length = t.rows) (hrow : ∀ r ∈ t.enemy_board, r.length = t.cols) :
    c ∉ (l.foldl markCell t).available_shots ∧
    cell2 (l.foldl markCell t).enemy_board '?' c.1 c.2 = 'M' := by
  induction l generalizing t with
  | nil => simp at hc
  | cons a tl ih =>
    rw [List.foldl_cons]
    by_cases hca : c = a
    · subst hca
      constructor
      · have h1 : c ∉ (markCell t c).available_shots := by
          rw [markCell, if_pos hg]
          exact Finset.not_mem_erase c _
        intro hmem
        exact h1 (foldl_markCell_avail_sub tl _ hmem)
      · exact foldl_markCell_eb_M tl _ c.1 c.2 (markCell_eb_write t c hg hlen hrow)
    · rcases List.mem_cons.1 hc with h | h
      · exact absurd h hca
      · have hk := markCell_keeps t a
        have hw := markCell_wf t a hlen hrow
        exact ih (markCell t a) h (by rw [hk.2.1, hk.1]; exact hg)
          (by rw [hk.1]; exact hw.1) (by rw [hk.2.1]; exact hw.2)

theorem mark_fold_keeps (L : List Coord) (t : Strategy) :
    ((L.foldl (fun t2 c2 => (neighbors4 c2).foldl markCell t2) t)).rows = t.rows ∧
    ((L.foldl (fun t2 c2 => (neighbors4 c2).foldl markCell t2) t)).cols = t.cols ∧
    ((L.foldl (fun t2 c2 => (neighbors4 c2).foldl markCell t2) t)).shots_fired = t.shots_fired ∧
    ((L.foldl (fun t2 c2 => (neighbors4 c2).foldl markCell t2) t)).missed_shots = t.missed_shots ∧
    ((L.foldl (fun t2 c2 => (neighbors4 c2).foldl markCell t2) t)).hit_queue = t.hit_queue ∧
    ((L.foldl (fun t2 c2 => (neighbors4 c2).foldl markCell t2) t)).current_hits = t.current_hits ∧
    ((L.foldl (fun t2 c2 => (neighbors4 c2).foldl markCell t2) t)).ships_dict = t.ships_dict := by
  induction L generalizing t with
  | nil => simp
  | cons a tl ih =>
    rw [List.foldl_cons]
    have h1 := foldl_markCell_keeps (neighbors4 a) t
    have h2 := ih ((neighbors4 a).foldl markCell t)
    exact ⟨h2.1.trans h1.1, h2.2.1.trans h1.2.1, h2.2.2.1.trans h1.2.2.1,
      h2.2.2.2.1.trans h1.2.2.2.1, h2.2.2.2.2.1.trans h1.2.2.2.2.1,
      h2.2.2.2.2.2.1.trans h1.2.2.2.2.2.1, h2.2.2.2.2.2.2.trans h1.2.2.2.2.2.2⟩

theorem mark_fold_avail_sub (L : List Coord) (t : Strategy) :
    ((L.foldl (fun t2 c2 => (neighbors4 c2).foldl markCell t2) t)).available_shots ⊆
      t.available_shots := by
  induction L generalizing t with
  | nil => exact Finset.Subset.refl _
  | cons a tl ih =>
    rw [List.foldl_cons]
    exact (ih _).trans (foldl_markCell_avail_sub (neighbors4 a) t)

theorem mark_fold_wf (L : List Coord) (t : Strategy)
    (hlen : t.enemy_board.length = t.rows) (hrow : ∀ r ∈ t.enemy_board, r.length = t.cols) :
    ((L.foldl (fun t2 c2 => (neighbors4 c2).foldl markCell t2) t)).enemy_board.length = t.rows ∧
    ∀ r ∈ ((L.foldl (fun t2 c2 => (neighbors4 c2).foldl markCell t2) t)).enemy_board,
      r.length = t.cols := by
  induction L generalizing t with
  | nil => exact ⟨hlen, hrow⟩
  | cons a tl ih =>
    rw [List.foldl_cons]
    have hw := foldl_markCell_wf (neighbors4 a) t hlen hrow
    have hk := foldl_markCell_keeps (neighbors4 a) t
    have := ih ((neighbors4 a).foldl markCell t) (by rw [hk.1]; exact hw.1)
      (by rw [hk.2.1]; exact hw.2)
    rw [hk.1, hk.2.1] at this
    exact this

theorem mark_fold_eb_M (L : List Coord) (t : Strategy) (u w : Int)
    (hprev : cell2 t.enemy_board '?' u w = 'M') :
    cell2 ((L.foldl (fun t2 c2 => (neighbors4 c2).foldl markCell t2) t)).enemy_board '?' u w
      = 'M' := by
  induction L generalizing t with
  | nil => exact hprev
  | cons a tl ih =>
    rw [List.foldl_cons]
    exact ih _ (foldl_markCell_eb_M (neighbors4 a) t u w hprev)

theorem mark_fold_hits (L : List Coord) (t : Strategy) (c nb : Coord) (hc : c ∈ L)
    (hnb : nb ∈ neighbors4 c) (hg : inb t.cols t.rows nb.1 nb.2 = true)
    (hlen : t.enemy_board.length = t.rows) (hrow : ∀ r ∈ t.enemy_board, r.length = t.cols) :
    nb ∉ ((L.foldl (fun t2 c2 => (neighbors4 c2).foldl markCell t2) t)).available_shots ∧
    cell2 ((L.foldl (fun t2 c2 => (neighbors4 c2).foldl markCell t2) t)).enemy_board '?'
      nb.1 nb.2 = 'M' := by
  induction L generalizing t with
  | nil => simp at hc
  | cons a tl ih =>
    rw [List.foldl_cons]
    by_cases hca : c = a
    · subst hca
      have hinner := foldl_markCell_hits (neighbors4 c) t nb hnb hg hlen hrow
      constructor
      · intro hmem
        exact hinner.1 (mark_fold_avail_sub tl _ hmem)
      · exact mark_fold_eb_M tl _ nb.1 nb.2 hinner.2
    · rcases List.mem_cons.1 hc with h | h
      · exact absurd h hca
      · have hk := foldl_markCell_keeps (neighbors4 a) t
        have hw := foldl_markCell_wf (neighbors4 a) t hlen hrow
        exact ih _ h (by rw [hk.2.1, hk.1]; exact hg)
          (by rw [hk.1]; exact hw.1) (by rw [hk.2.1]; exact hw.2)

theorem mark_surrounding_hits (t : Strategy) (c nb : Coord) (hc : c ∈ t.current_hits)
    (hnb : nb ∈ neighbors4 c) (hg : inb t.cols t.rows nb.1 nb.2 = true)
    (hlen : t.enemy_board.length = t.rows) (hrow : ∀ r ∈ t.enemy_board, r.length = t.cols) :
    nb ∉ (mark_surrounding_cells t).available_shots ∧
    cell2 (mark_surrounding_cells t).enemy_board '?' nb.1 nb.2 = 'M' := by
  rw [mark_surrounding_cells]
  exact mark_fold_hits t.current_hits t c nb hc hnb hg hlen hrow

theorem mark_keeps (t : Strategy) :
    (mark_surrounding_cells t).rows = t.rows ∧ (mark_surrounding_cells t).cols = t.cols ∧
    (mark_surrounding_cells t).shots_fired = t.shots_fired ∧
    (mark_surrounding_cells t).missed_shots = t.missed_shots ∧
    (mark_surrounding_cells t).hit_queue = t.hit_queue ∧
    (mark_surrounding_cells t).current_hits = t.current_hits ∧
    (mark_surrounding_cells t).ships_dict = t.ships_dict := by
  rw [mark_surrounding_cells]
  exact mark_fold_keeps t.current_hits t

theorem mark_avail_sub (t : Strategy) :
    (mark_surrounding_cells t).available_shots ⊆ t.available_shots := by
  rw [mark_surrounding_cells]
  exact mark_fold_avail_sub t.current_hits t

/-! ## Unfolding equations for register_attack -/

theorem pySet2D_inb {α : Type} (b : List (List α)) (x y : Int) (v : α) (R C : Nat)
    (hlen : b.length = R) (hrow : ∀ r ∈ b, r.length = C)
    (hx : 0 ≤ x) (hxc : x < (C : Int)) (hy : 0 ≤ y) (hyr : y < (R : Int)) :
    pySet2D b x y v = some (setc2 b x y v) := by
  have h1 : pyIdx b.length y = some y.toNat := by
    rw [pyIdx, if_pos (by omega : 0 ≤ y ∧ y < (b.length : Int))]
  have hrowlen : (nthD b y.toNat []).length = C :=
    hrow _ (nthD_mem b y.toNat [] (by omega))
  have h2 : pyIdx (nthD b y.toNat []).length x = some x.toNat := by
    rw [pyIdx, if_pos (by omega : 0 ≤ x ∧ x < ((nthD b y.toNat []).length : Int))]
  simp only [pySet2D, h1, h2, setc2]

theorem register_eq_err (s : Strategy) (x y : Int) (hit sunk : Bool)
    (hps : pySet2D s.enemy_board x y (if hit then 'H' else 'M') = none) :
    register_attack s x y hit sunk =
      { s with shots_fired := insert (x, y) s.shots_fired,
               available_shots := s.available_shots.erase (x, y) } := by
  simp only [register_attack, hps]

theorem register_eq_miss (s : Strategy) (x y : Int) (sunk : Bool) (eb : List (List Char))
    (hps : pySet2D s.enemy_board x y 'M' = some eb) :
    register_attack s x y false sunk =
      { s with shots_fired := insert (x, y) s.shots_fired,
               available_shots := s.available_shots.erase (x, y),
               enemy_board := eb,
               missed_shots := insert (x, y) s.missed_shots } := by
  simp [register_attack, hps]

theorem register_eq_hit (s : Strategy) (x y : Int) (eb : List (List Char))
    (hps : pySet2D s.enemy_board x y 'H' = some eb) :
    register_attack s x y true false =
      { s with shots_fired := insert (x, y) s.shots_fired,
               available_shots := s.available_shots.erase (x, y),
               enemy_board := eb,
               current_hits := s.current_hits ++ [(x, y)],
               hit_queue := s.hit_queue ++ get_target_cells
                 { s with shots_fired := insert (x, y) s.shots_fired,
                          available_shots := s.available_shots.erase (x, y),
                          enemy_board := eb,
                          current_hits := s.current_hits ++ [(x, y)] } } := by
  simp [register_attack, hps]

theorem register_eq_sunk (s : Strategy) (x y : Int) (eb : List (List Char))
    (hps : pySet2D s.enemy_board x y 'H' = some eb) :
    register_attack s x y true true =
      { mark_surrounding_cells (identify_sunk_ship
          { s with shots_fired := insert (x, y) s.shots_fired,
                   available_shots := s.available_shots.erase (x, y),
                   enemy_board := eb,
                   current_hits := s.current_hits ++ [(x, y)] })
        with hit_queue := [], current_hits := [] } := by
  simp [register_attack, hps]

theorem register_fired (s : Strategy) (x y : Int) (hit sunk : Bool) :
    (register_attack s x y hit sunk).shots_fired = insert (x, y) s.shots_fired := by
  rcases hps : pySet2D s.enemy_board x y (if hit then 'H' else 'M') with _ | eb
  · rw [register_eq_err s x y hit sunk hps]
  · cases hit
    · rw [register_eq_miss s x y sunk eb (by simpa using hps)]
    · cases sunk
      · rw [register_eq_hit s x y eb (by simpa using hps)]
      · rw [register_eq_sunk s x y eb (by simpa using hps)]
        dsimp only
        rw [(mark_keeps _).2.2.1, (identify_keeps _).2.2.2.1]

theorem register_avail_sub (s : Strategy) (x y : Int) (hit sunk : Bool) :
    (register_attack s x y hit sunk).available_shots ⊆ s.available_shots.erase (x, y) := by
  rcases hps : pySet2D s.enemy_board x y (if hit then 'H' else 'M') with _ | eb
  · rw [register_eq_err s x y hit sunk hps]
  · cases hit
    · rw [register_eq_miss s x y sunk eb (by simpa using hps)]
    · cases sunk
      · rw [register_eq_hit s x y eb (by simpa using hps)]
      · rw [register_eq_sunk s x y eb (by simpa using hps)]
        intro c hc
        dsimp only at hc
        have hc2 := mark_avail_sub _ hc
        rw [(identify_keeps _).2.2.2.2.2.2.2] at hc2
        exact hc2

theorem gna_avail (s : Strategy) (pick : Coord) :
    (get_next_attack s pick).2.available_shots = s.available_shots := by
  cases hq : s.hit_queue <;> simp [get_next_attack, hq]

theorem gna_fired (s : Strategy) (pick : Coord) :
    (get_next_attack s pick).2.shots_fired = s.shots_fired := by
  cases hq : s.hit_queue <;> simp [get_next_attack, hq]

theorem reach_disjoint (s : Strategy) (h : Reach s) :
    ∀ c ∈ s.available_shots, c ∉ s.shots_fired := by
  induction h with
  | init rows cols census =>
    intro c _ hc
    simp [Strategy.init] at hc
  | next s pick hr ih =>
    intro c hc
    rw [gna_avail] at hc
    rw [gna_fired]
    exact ih c hc
  | register s x y hit sunk hr ih =>
    intro c hc
    have ha := register_avail_sub s x y hit sunk hc
    rw [register_fired]
    have hc2 := Finset.mem_of_mem_erase ha
    have hne := Finset.ne_of_mem_erase ha
    rw [Finset.mem_insert]
    push_neg
    exact ⟨hne, ih c hc2⟩

/-! ## Alignment of queued targets with the first hit of a run -/

theorem sharesAxisB_self (a : Coord) : sharesAxisB a a = true := by
  simp [sharesAxisB]

theorem target_cells_share (s : Strategy) (h : Coord) (t : List Coord)
    (hch : s.current_hits = h :: t) :
    ∀ q ∈ get_target_cells s, sharesAxisB q h = true := by
  intro q hq
  cases t with
  | nil =>
    have heq : get_target_cells s = get_adjacent_cells s h.1 h.2 := by
      rw [get_target_cells, hch]
    rw [heq, get_adjacent_cells] at hq
    have hmem := (List.mem_filter.1 hq).1
    simp only [neighbors4, List.mem_cons, List.not_mem_nil, or_false] at hmem
    rcases hmem with h2 | h2 | h2 | h2 <;> subst h2 <;> simp [sharesAxisB]
  | cons t0 t1 =>
    have heq : get_target_cells s =
        if ((h :: t0 :: t1).map Prod.fst).all (fun a => a == h.1) then
          ([(h.1, listMin ((h :: t0 :: t1).map Prod.snd) - 1),
            (h.1, listMax ((h :: t0 :: t1).map Prod.snd) + 1)]).filter
            (fun q2 => decide (q2 ∈ s.available_shots))
        else
          ([(listMin ((h :: t0 :: t1).map Prod.fst) - 1, h.2),
            (listMax ((h :: t0 :: t1).map Prod.fst) + 1, h.2)]).filter
            (fun q2 => decide (q2 ∈ s.available_shots)) := by
      rw [get_target_cells, hch]
    rw [heq] at hq
    by_cases hall : ((h :: t0 :: t1).map Prod.fst).all (fun a => a == h.1) = true
    · rw [if_pos hall] at hq
      have hmem := (List.mem_filter.1 hq).1
      simp only [List.mem_cons, List.not_mem_nil, or_false] at hmem
      rcases hmem with h2 | h2 <;> subst h2 <;> simp [sharesAxisB]
    · rw [if_neg hall] at hq
      have hmem := (List.mem_filter.1 hq).1
      simp only [List.mem_cons, List.not_mem_nil, or_false] at hmem
      rcases hmem with h2 | h2 <;> subst h2 <;> simp [sharesAxisB]

theorem aligned_nil_queue (s : Strategy) (ha : hitsAlignedB s = true)
    (hch : s.current_hits = []) : s.hit_queue = [] := by
  rw [hitsAlignedB, hch] at ha
  simpa using ha

theorem aligned_cons (s : Strategy) (h0 : Coord) (t0 : List Coord)
    (ha : hitsAlignedB s = true) (hch : s.current_hits = h0 :: t0) :
    (∀ z ∈ s.current_hits, sharesAxisB z h0 = true) ∧
    (∀ z ∈ s.hit_queue, sharesAxisB z h0 = true) := by
  rw [hitsAlignedB, hch] at ha
  rw [Bool.and_eq_true, List.all_eq_true, List.all_eq_true] at ha
  rw [hch]
  exact ha

theorem aligned_intro_nil (s : Strategy) (hch : s.current_hits = [])
    (hq : s.hit_queue = []) : hitsAlignedB s = true := by
  rw [hitsAlignedB, hch, hq]
  rfl

theorem aligned_intro_cons (s : Strategy) (h0 : Coord) (t0 : List Coord)
    (hch : s.current_hits = h0 :: t0)
    (h1 : ∀ z ∈ s.current_hits, sharesAxisB z h0 = true)
    (h2 : ∀ z ∈ s.hit_queue, sharesAxisB z h0 = true) : hitsAlignedB s = true := by
  rw [hitsAlignedB, hch]
  rw [Bool.and_eq_true, List.all_eq_true, List.all_eq_true]
  rw [hch] at h1
  exact ⟨h1, h2⟩

theorem protoD_aligned (s : Strategy) (h : ProtoReachD s) : hitsAlignedB s = true := by
  induction h with
  | init rows cols census => rfl
  | stepQ s c rest hit sunk hr hqe ih =>
    rcases hps : pySet2D s.enemy_board c.1 c.2 (if hit then 'H' else 'M') with _ | eb
    · rw [register_eq_err { s with hit_queue := rest } c.1 c.2 hit sunk hps]
      cases hcur : s.current_hits with
      | nil =>
        have := aligned_nil_queue s ih hcur
        rw [hqe] at this
        exact absurd this (by simp)
      | cons h0 t0 =>
        obtain ⟨hallc, hallq⟩ := aligned_cons s h0 t0 ih hcur
        rw [hcur] at hallc
        refine aligned_intro_cons _ h0 t0 rfl hallc ?_
        intro z hz
        exact hallq z (hqe ▸ List.mem_cons_of_mem c hz)
    · cases hit with
      | false =>
        rw [register_eq_miss { s with hit_queue := rest } c.1 c.2 sunk eb (by simpa using hps)]
        cases hcur : s.current_hits with
        | nil =>
          have := aligned_nil_queue s ih hcur
          rw [hqe] at this
          exact absurd this (by simp)
        | cons h0 t0 =>
          obtain ⟨hallc, hallq⟩ := aligned_cons s h0 t0 ih hcur
          rw [hcur] at hallc
          refine aligned_intro_cons _ h0 t0 rfl hallc ?_
          intro z hz
          exact hallq z (hqe ▸ List.mem_cons_of_mem c hz)
      | true =>
        cases sunk with
        | true =>
          rw [register_eq_sunk { s with hit_queue := rest } c.1 c.2 eb (by simpa using hps)]
          exact aligned_intro_nil _ rfl rfl
        | false =>
          rw [register_eq_hit { s with hit_queue := rest } c.1 c.2 eb (by simpa using hps)]
          cases hcur : s.current_hits with
          | nil =>
            have := aligned_nil_queue s ih hcur
            rw [hqe] at this
            exact absurd this (by simp)
          | cons h0 t0 =>
            obtain ⟨hallc, hallq⟩ := aligned_cons s h0 t0 ih hcur
            rw [hcur] at hallc
            refine aligned_intro_cons _ h0 (t0 ++ [c]) ?_ ?_ ?_
            · show (h0 :: t0) ++ [c] = h0 :: (t0 ++ [c])
              rfl
            · show ∀ z ∈ (h0 :: t0) ++ [c], sharesAxisB z h0 = true
              intro z hz
              rcases List.mem_append.1 hz with hz2 | hz2
              · exact hallc z hz2
              · rw [List.mem_singleton.1 hz2]
                exact hallq c (hqe ▸ List.mem_cons_self c rest)
            · show ∀ z ∈ rest ++ get_target_cells _, sharesAxisB z h0 = true
              intro z hz
              rcases List.mem_append.1 hz with hz2 | hz2
              · exact hallq z (hqe ▸ List.mem_cons_of_mem c hz2)
              · refine target_cells_share _ h0 (t0 ++ [c]) ?_ z hz2
                show (h0 :: t0) ++ [c] = h0 :: (t0 ++ [c])
                rfl
  | stepRandMiss s pick sunk hr hqe hmem ih =>
    have hreg : ∀ u : Strategy, u.current_hits = s.current_hits → u.hit_queue = s.hit_queue →
        hitsAlignedB u = true := by
      intro u hu1 hu2
      cases hcur : s.current_hits with
      | nil => exact aligned_intro_nil u (hu1.trans hcur) (hu2.trans (aligned_nil_queue s ih hcur))
      | cons h0 t0 =>
        obtain ⟨hallc, hallq⟩ := aligned_cons s h0 t0 ih hcur
        refine aligned_intro_cons u h0 t0 (hu1.trans hcur) ?_ ?_
        · rw [hu1]
          exact hallc
        · rw [hu2]
          exact hallq
    rcases hps : pySet2D s.enemy_board pick.1 pick.2 'M' with _ | eb
    · rw [register_eq_err s pick.1 pick.2 false sunk (by simpa using hps)]
      exact hreg _ rfl rfl
    · rw [register_eq_miss s pick.1 pick.2 sunk eb hps]
      exact hreg _ rfl rfl
  | stepRandHit s pick sunk hr hqe hch0 hmem ih =>
    rcases hps : pySet2D s.enemy_board pick.1 pick.2 'H' with _ | eb
    · rw [register_eq_err s pick.1 pick.2 true sunk (by simpa using hps)]
      exact aligned_intro_nil _ hch0 hqe
    · cases sunk with
      | true =>
        rw [register_eq_sunk s pick.1 pick.2 eb hps]
        exact aligned_intro_nil _ rfl rfl
      | false =>
        rw [register_eq_hit s pick.1 pick.2 eb hps]
        refine aligned_intro_cons _ pick [] ?_ ?_ ?_
        · show s.current_hits ++ [pick] = pick :: []
          rw [hch0]
          rfl
        · show ∀ z ∈ s.current_hits ++ [pick], sharesAxisB z pick = true
          rw [hch0]
          intro z hz
          have hzp : z = pick := by simpa using hz
          rw [hzp]
          exact sharesAxisB_self pick
        · show ∀ z ∈ s.hit_queue ++ get_target_cells _, sharesAxisB z pick = true
          rw [hqe]
          intro z hz
          refine target_cells_share _ pick [] ?_ z (by simpa using hz)
          show s.current_hits ++ [pick] = pick :: []
          rw [hch0]
          rfl

/-! ## Effect of a sinking register_attack -/

theorem register_sunk_marks (s : Strategy) (x y : Int)
    (hlen : s.enemy_board.length = s.rows) (hrow : ∀ r ∈ s.enemy_board, r.length = s.cols)
    (hx : 0 ≤ x) (hxc : x < (s.cols : Int)) (hy : 0 ≤ y) (hyr : y < (s.rows : Int)) :
    (register_attack s x y true true).hit_queue = [] ∧
    (register_attack s x y true true).current_hits = [] ∧
    ∀ c ∈ s.current_hits ++ [(x, y)], ∀ nb ∈ neighbors4 c,
      inb s.cols s.rows nb.1 nb.2 = true →
        nb ∉ (register_attack s x y true true).available_shots ∧
        cell2 (register_attack s x y true true).enemy_board '?' nb.1 nb.2 = 'M' := by
  have hps := pySet2D_inb s.enemy_board x y 'H' s.rows s.cols hlen hrow hx hxc hy hyr
  rw [register_eq_sunk s x y (setc2 s.enemy_board x y 'H') hps]
  refine ⟨rfl, rfl, ?_⟩
  intro c hc nb hnb hg
  have hk := identify_keeps
    { s with shots_fired := insert (x, y) s.shots_fired,
             available_shots := s.available_shots.erase (x, y),
             enemy_board := setc2 s.enemy_board x y 'H',
             current_hits := s.current_hits ++ [(x, y)] }
  have hwf := wf_setc2 s.enemy_board x y 'H' s.rows s.cols hlen hrow
  refine mark_surrounding_hits _ c nb ?_ hnb ?_ ?_ ?_
  · rw [hk.2.2.2.2.2.2.1]
    exact hc
  · rw [hk.2.1, hk.1]
    exact hg
  · rw [hk.2.2.1, hk.1]
    exact hwf.1
  · rw [hk.2.2.1, hk.2.1]
    exact hwf.2

/-! ## Claim theorems -/

/-- Claim C1 (code bug): on a 1-by-1 board with one 2-cell ship, `place_ships`
cannot place the ship, yet the failure is an `IndexError` from
`positions.pop()` on the exhausted candidate list, not the documented
`ValueError`; the docstring of `place_ships` promises a `ValueError`
whenever placement is impossible, so the unplaced-ship path on boards with
fewer than 2000 cells contradicts the code's own documentation. -/
theorem claim_C1_small_board_index_error :
    place_ships 1 1 [(1, 1)] (fun _ => [(0, 0)]) = .error PlaceErr.indexError := rfl

/-- Claim C2: after a successful `place_ships` run (for any board size,
any census of nonzero ship ids as in the spec data model, and any random
shuffle oracle), the board is a well-formed rows-by-cols grid, every
instance cell lies within `[0, cols) ×  [0, rows)`, every non-zero board
cell belongs to some placed instance, and distinct instances never share
a cell and keep Chebyshev distance at least 2 between their cells. -/
theorem claim_C2_placement_geometry (rows cols : Nat) (census : List (Nat × Nat))
    (rand : Nat → List Coord) (b : List (List Nat)) (ps : List (Nat × List Coord))
    (hpos : ∀ e ∈ census, e.1 ≠ 0)
    (h : place_ships rows cols census rand = .ok (b, ps)) :
    (b.length = rows ∧ ∀ r ∈ b, r.length = cols) ∧
    (∀ q ∈ ps, ∀ c ∈ q.2, 0 ≤ c.1 ∧ c.1 < (cols : Int) ∧ 0 ≤ c.2 ∧ c.2 < (rows : Int)) ∧
    (∀ u w : Int, 0 ≤ u → u < (cols : Int) → 0 ≤ w → w < (rows : Int) →
      cell2 b 0 u w ≠ 0 → ∃ q ∈ ps, (u, w) ∈ q.2) ∧
    List.Pairwise (fun q q' => ∀ a ∈ q.2, ∀ c ∈ q'.2, a ≠ c ∧ 2 ≤ cheb a c) ps := by
  obtain ⟨inv, _⟩ := place_ships_inv rows cols census rand b ps hpos h
  exact ⟨⟨inv.wf_len, inv.wf_row⟩, inv.bounded, inv.occSub, inv.sep⟩

/-- Witness for claim C2: a concrete successful run on a 3-by-3 board with
one instance of the 2-cell ship, anchored at the single supplied position. -/
theorem claim_C2_witness :
    (place_ships 3 3 [(1, 1)] (fun _ => [(0, 0)])
      = .ok ([[1, 0, 0], [1, 0, 0], [0, 0, 0]], [(1, [(0, 0), (0, 1)])])) ∧
    ((([[1, 0, 0], [1, 0, 0], [0, 0, 0]] : List (List Nat)).length = 3 ∧
      ∀ r ∈ ([[1, 0, 0], [1, 0, 0], [0, 0, 0]] : List (List Nat)), r.length = 3) ∧
    (∀ q ∈ [((1 : Nat), [((0 : Int), (0 : Int)), (0, 1)])], ∀ c ∈ q.2,
      0 ≤ c.1 ∧ c.1 < (3 : Int) ∧ 0 ≤ c.2 ∧ c.2 < (3 : Int)) ∧
    (∀ u w : Int, 0 ≤ u → u < (3 : Int) → 0 ≤ w → w < (3 : Int) →
      cell2 [[1, 0, 0], [1, 0, 0], [0, 0, 0]] 0 u w ≠ 0 →
        ∃ q ∈ [((1 : Nat), [((0 : Int), (0 : Int)), (0, 1)])], (u, w) ∈ q.2) ∧
    List.Pairwise (fun q q' => ∀ a ∈ q.2, ∀ c ∈ q'.2, a ≠ c ∧ 2 ≤ cheb a c)
      [((1 : Nat), [((0 : Int), (0 : Int)), (0, 1)])]) :=
  ⟨rfl, claim_C2_placement_geometry 3 3 [(1, 1)] (fun _ => [(0, 0)])
    [[1, 0, 0], [1, 0, 0], [0, 0, 0]] [(1, [(0, 0), (0, 1)])] (by decide) rfl⟩

/-- Counterexample to claim C3: `mirror` applied to catalog shape 1 returns
`[(0, 0), (0, -1)]`, whose minimum dy is -1, not 0 — the y axis is not
re-normalized after the flip (and similarly `rotate` leaves negative dy on
shapes with a nonzero dx extent). -/
theorem claim_C3_counterexample :
    mirror (getShape 1) = [(0, 0), (0, -1)] ∧ minY (mirror (getShape 1)) ≠ 0 := by
  decide

/-- Claim C3 amended: `rotate` and `mirror` are pure functions on shapes,
and for every nonempty input shape each returns a shape re-normalized to
minimum dx = 0; the minimum dy of the result is not re-normalized and can
be negative. -/
theorem claim_C3_amended (s : Shape) (h : s ≠ []) :
    minX (rotate s) = 0 ∧ minX (mirror s) = 0 :=
  ⟨minX_rotate s h, minX_mirror s h⟩

/-- Witness for amended claim C3 at catalog shape 1. -/
theorem claim_C3_amended_witness :
    (getShape 1 ≠ []) ∧ (minX (rotate (getShape 1)) = 0 ∧ minX (mirror (getShape 1)) = 0) :=
  ⟨by decide, claim_C3_amended (getShape 1) (by decide)⟩

/-- Counterexample to claim C4: a protocol trace (every `register_attack`
uses the coordinate just returned by `get_next_attack`) reaching a state
whose `current_hits` is the L shape `[(5,5), (4,5), (5,4)]` — neither all
x equal nor all y equal — because the stale single-hit neighbour `(5,4)`
was still queued when the run had already extended horizontally. -/
theorem claim_C4_counterexample :
    ProtoReach sC4e ∧ collinearB sC4e.current_hits = false := by
  constructor
  · have h0 : ProtoReach sC4a := ProtoReach.init 10 10 [(3, 1)]
    have h1 : ProtoReach sC4b :=
      ProtoReach.step sC4a (5, 5) (5, 5) true false h0 (by decide)
    have h2 : ProtoReach sC4c :=
      ProtoReach.step sC4b (0, 0) (4, 5) true false h1 (by decide)
    have h3 : ProtoReach sC4d :=
      ProtoReach.step sC4c (0, 0) (6, 5) false false h2 (by decide)
    exact ProtoReach.step sC4d (0, 0) (5, 4) true false h3 (by decide)
  · decide

/-- Claim C4 amended: under the firing protocol further restricted so that
a hit reported on a hunt-mode (random) shot only ever opens a new run,
every coordinate in `current_hits` and every queued candidate shares its
row or its column with the first hit of the current run (full collinearity
of `current_hits` does not hold, as the counterexample shows). -/
theorem claim_C4_amended (s : Strategy) (h : ProtoReachD s) : hitsAlignedB s = true :=
  protoD_aligned s h

/-- Witness for amended claim C4: the disciplined two-step trace that
registers a first random hit at (5,5). -/
theorem claim_C4_amended_witness :
    hitsAlignedB (register_attack (Strategy.init 10 10 [(2, 1)]) 5 5 true false) = true :=
  claim_C4_amended _ (ProtoReachD.stepRandHit (Strategy.init 10 10 [(2, 1)]) (5, 5) false
    (ProtoReachD.init 10 10 [(2, 1)]) rfl rfl (by decide))

/-- Claim C5: in every Targeter state reachable from construction by any
sequence of the public operations (`get_next_attack` with any random pick,
`register_attack` with arbitrary arguments, and the pure queries), no
coordinate is simultaneously in `available_shots` and `shots_fired`. -/
theorem claim_C5_shot_exclusivity (s : Strategy) (h : Reach s) :
    s.available_shots ∩ s.shots_fired = ∅ := by
  rw [Finset.eq_empty_iff_forall_not_mem]
  intro c hc
  rw [Finset.mem_inter] at hc
  exact reach_disjoint s h c hc.1 hc.2

/-- Witness for claim C5 after one constructed reachable step. -/
theorem claim_C5_witness :
    (register_attack (Strategy.init 5 5 [(2, 1)]) 1 1 true false).available_shots ∩
      (register_attack (Strategy.init 5 5 [(2, 1)]) 1 1 true false).shots_fired = ∅ :=
  claim_C5_shot_exclusivity _
    (Reach.register (Strategy.init 5 5 [(2, 1)]) 1 1 true false (Reach.init 5 5 [(2, 1)]))

/-- Claim C6: after `register_attack(x, y, true, true)` at an in-bounds
coordinate on a well-formed opponent model, every in-bounds orthogonal
neighbour of every cell of the sunk run (the prior `current_hits` plus the
sinking hit) is removed from `available_shots` and set to `M` in the
opponent model, and afterwards `hit_queue` and `current_hits` are empty. -/
theorem claim_C6_forced_miss (s : Strategy) (x y : Int)
    (hlen : s.enemy_board.length = s.rows) (hrow : ∀ r ∈ s.enemy_board, r.length = s.cols)
    (hx : 0 ≤ x) (hxc : x < (s.cols : Int)) (hy : 0 ≤ y) (hyr : y < (s.rows : Int)) :
    (register_attack s x y true true).hit_queue = [] ∧
    (register_attack s x y true true).current_hits = [] ∧
    ∀ c ∈ s.current_hits ++ [(x, y)], ∀ nb ∈ neighbors4 c,
      0 ≤ nb.1 → nb.1 < (s.cols : Int) → 0 ≤ nb.2 → nb.2 < (s.rows : Int) →
        nb ∉ (register_attack s x y true true).available_shots ∧
        cell2 (register_attack s x y true true).enemy_board '?' nb.1 nb.2 = 'M' := by
  obtain ⟨h1, h2, h3⟩ := register_sunk_marks s x y hlen hrow hx hxc hy hyr
  refine ⟨h1, h2, ?_⟩
  intro c hc nb hnb g1 g2 g3 g4
  exact h3 c hc nb hnb (by rw [inb, decide_eq_true_eq]; exact ⟨g1, g2, g3, g4⟩)

/-- Witness for claim C6: sinking the horizontal two-cell ship at
(3,3)-(4,3) of the end-to-end scenario. -/
theorem claim_C6_witness :
    (sC8b.enemy_board.length = sC8b.rows) ∧
    ((register_attack sC8b 4 3 true true).hit_queue = [] ∧
     (register_attack sC8b 4 3 true true).current_hits = [] ∧
     ∀ c ∈ sC8b.current_hits ++ [(4, 3)], ∀ nb ∈ neighbors4 c,
       0 ≤ nb.1 → nb.1 < (sC8b.cols : Int) → 0 ≤ nb.2 → nb.2 < (sC8b.rows : Int) →
         nb ∉ (register_attack sC8b 4 3 true true).available_shots ∧
         cell2 (register_attack sC8b 4 3 true true).enemy_board '?' nb.1 nb.2 = 'M') :=
  ⟨by decide, claim_C6_forced_miss sC8b 4 3 (by decide) (by decide) (by decide) (by decide)
    (by decide) (by decide)⟩

/-- Claim C7: after a successful `place_ships` run (census ids nonzero as
in the spec data model), the `occupied_spaces` count of `board_stats`
equals the sum over the census of count times shape size, where the shape
of a listed id comes from the static table and an unlisted id falls back
to the single-cell shape. -/
theorem claim_C7_placement_count (rows cols : Nat) (census : List (Nat × Nat))
    (rand : Nat → List Coord) (b : List (List Nat)) (ps : List (Nat × List Coord))
    (hpos : ∀ e ∈ census, e.1 ≠ 0)
    (h : place_ships rows cols census rand = .ok (b, ps)) :
    board_stats_occupied rows cols b
      = (census.map fun e => e.2 * (getShape e.1).length).sum := by
  obtain ⟨inv, hsum⟩ := place_ships_inv rows cols census rand b ps hpos h
  have hcnt := inv.cnt
  rw [board_stats_occupied, ← hcnt, hsum]
  omega

/-- Witness for claim C7 on the concrete 3-by-3 run with one 2-cell ship. -/
theorem claim_C7_witness :
    (place_ships 3 3 [(1, 1)] (fun _ => [(0, 0)])
      = .ok ([[1, 0, 0], [1, 0, 0], [0, 0, 0]], [(1, [(0, 0), (0, 1)])])) ∧
    board_stats_occupied 3 3 [[1, 0, 0], [1, 0, 0], [0, 0, 0]]
      = (([(1, 1)] : List (Nat × Nat)).map fun e => e.2 * (getShape e.1).length).sum :=
  ⟨rfl, claim_C7_placement_count 3 3 [(1, 1)] (fun _ => [(0, 0)])
    [[1, 0, 0], [1, 0, 0], [0, 0, 0]] [(1, [(0, 0), (0, 1)])] (by decide) rfl⟩

/-- Claim C8: for a Targeter constructed with census size 2 count 1,
registering a hit at (3,3) and a sinking hit at (4,3) makes
`all_ships_sunk` true (the census count for size 2 drops from 1 to 0) and
leaves the target queue empty. -/
theorem claim_C8_end_to_end :
    all_ships_sunk sC8c = true ∧ sC8c.hit_queue = [] ∧ get_remaining_ships sC8c = [(2, 0)] := by
  decide

/-- Claim C9: when `register_attack(x, y, true, true)` sinks a run of
cells each of which is an orthogonal neighbour of another cell of the run
(as in any orthogonally contiguous run of at least 2 cells), every cell of
the run — including the cells previously marked `H` — ends up marked `M`
in the opponent model, so no `H` mark of the sunk ship survives. -/
theorem claim_C9_sunk_overwrite (s : Strategy) (x y : Int)
    (hlen : s.enemy_board.length = s.rows) (hrow : ∀ r ∈ s.enemy_board, r.length = s.cols)
    (hx : 0 ≤ x) (hxc : x < (s.cols : Int)) (hy : 0 ≤ y) (hyr : y < (s.rows : Int))
    (hin : ∀ c ∈ s.current_hits ++ [(x, y)],
      0 ≤ c.1 ∧ c.1 < (s.cols : Int) ∧ 0 ≤ c.2 ∧ c.2 < (s.rows : Int))
    (hadj : ∀ c ∈ s.current_hits ++ [(x, y)],
      ∃ c2 ∈ s.current_hits ++ [(x, y)], c ∈ neighbors4 c2) :
    ∀ c ∈ s.current_hits ++ [(x, y)],
      cell2 (register_attack s x y true true).enemy_board '?' c.1 c.2 = 'M' := by
  intro c hc
  obtain ⟨c2, hc2, hnb⟩ := hadj c hc
  have hb := hin c hc
  exact ((register_sunk_marks s x y hlen hrow hx hxc hy hyr).2.2 c2 hc2 c hnb
    (by rw [inb, decide_eq_true_eq]; exact hb)).2

/-- Witness for claim C9: the two-cell run (3,3)-(4,3); both cells end up
`M` after the sink, overwriting their `H` marks. -/
theorem claim_C9_witness :
    (∀ c ∈ sC8b.current_hits ++ [((4 : Int), (3 : Int))],
      ∃ c2 ∈ sC8b.current_hits ++ [((4 : Int), (3 : Int))], c ∈ neighbors4 c2) ∧
    ∀ c ∈ sC8b.current_hits ++ [((4 : Int), (3 : Int))],
      cell2 (register_attack sC8b 4 3 true true).enemy_board '?' c.1 c.2 = 'M' :=
  ⟨by decide, claim_C9_sunk_overwrite sC8b 4 3 (by decide) (by decide) (by decide) (by decide)
    (by decide) (by decide) (by decide) (by decide)⟩

/-- Claim C10: the targeting policy does not guarantee fresh coordinates:
along a protocol trace, extending the run (5,5)-(4,5) queues (6,5) a second
time while the stale copy is still queued; after the first copy is fired
and reported a miss, a later `get_next_attack` returns (6,5) again even
though it is already a member of `shots_fired`. -/
theorem claim_C10_stale_queue :
    ProtoReach sC10c ∧ sC10c.hit_queue.count (6, 5) = 2 ∧
    ProtoReach sC10g ∧ (get_next_attack sC10g (0, 0)).1 = some (6, 5) ∧
    (6, 5) ∈ sC10g.shots_fired := by
  have h0 : ProtoReach sC10a := ProtoReach.init 10 10 [(3, 1)]
  have h1 : ProtoReach sC10b :=
    ProtoReach.step sC10a (5, 5) (5, 5) true false h0 (by decide)
  have h2 : ProtoReach sC10c :=
    ProtoReach.step sC10b (0, 0) (4, 5) true false h1 (by decide)
  have h3 : ProtoReach sC10d :=
    ProtoReach.step sC10c (0, 0) (6, 5) false false h2 (by decide)
  have h4 : ProtoReach sC10e :=
    ProtoReach.step sC10d (0, 0) (5, 4) false false h3 (by decide)
  have h5 : ProtoReach sC10f :=
    ProtoReach.step sC10e (0, 0) (5, 6) false false h4 (by decide)
  have h6 : ProtoReach sC10g :=
    ProtoReach.step sC10f (0, 0) (3, 5) false false h5 (by decide)
  exact ⟨h2, by decide, h6, by decide, by decide⟩

end Battleships
